import Mathlib

/-!
Shallow embedding of the crashmonkey epoch permuter
(`src/code/permuter/Permuter.cpp`) and proofs of the specification claims.

Machine integers (`unsigned int`) are modelled as `Nat`; where the C++ code
can wrap around (the `write_sector + size - 1` computation for a zero-sized
write), the wrap is made explicit with `% 2^32`.  The `disk_write` record and
its flag accessors live in the `utils` module, outside this tree; they are
modelled from the spec's data model (section 3).
-/

/-- Modelled from the spec: the set of active flag bits of a recorded
block-I/O operation (WRITE, FLUSH, FLUSH_SEQ, FUA, META, CHECKPOINT).
The `disk_write` type itself lives in the utils module outside this tree. -/
structure DWFlags where
  write : Bool
  flush : Bool
  flush_seq : Bool
  fua : Bool
  meta : Bool
  checkpoint : Bool
deriving DecidableEq

/-- Modelled from the spec: metadata of a recorded block-I/O operation:
starting sector (LBA in 512-byte kernel sectors), byte length, submission
timestamp in nanoseconds, and the flag set. -/
structure DWMetadata where
  write_sector : Nat
  size : Nat
  time_ns : Nat
  flags : DWFlags
deriving DecidableEq

/-- Modelled from the spec: one recorded block-I/O operation, metadata plus
an owned payload buffer (a byte list; empty when there is no payload). -/
structure disk_write where
  metadata : DWMetadata
  data : List Nat
deriving DecidableEq

namespace disk_write

/-- Modelled from the spec: FLUSH flag accessor. -/
def has_flush_flag (d : disk_write) : Bool := d.metadata.flags.flush

/-- Modelled from the spec: FLUSH_SEQ flag accessor. -/
def has_flush_seq_flag (d : disk_write) : Bool := d.metadata.flags.flush_seq

/-- Modelled from the spec: FUA flag accessor. -/
def has_FUA_flag (d : disk_write) : Bool := d.metadata.flags.fua

/-- Modelled from the spec: WRITE flag accessor. -/
def has_write_flag (d : disk_write) : Bool := d.metadata.flags.write

/-- Modelled from the spec: BARRIER predicate (= FLUSH or FUA or FLUSH_SEQ). -/
def is_barrier (d : disk_write) : Bool :=
  d.metadata.flags.flush || d.metadata.flags.flush_seq || d.metadata.flags.fua

/-- Modelled from the spec: META flag accessor. -/
def is_meta (d : disk_write) : Bool := d.metadata.flags.meta

/-- Modelled from the spec: CHECKPOINT predicate. -/
def is_checkpoint (d : disk_write) : Bool := d.metadata.flags.checkpoint

/-- Modelled from the spec: clear the FLUSH flag. -/
def clear_flush_flag (d : disk_write) : disk_write :=
  { d with metadata := { d.metadata with
      flags := { d.metadata.flags with flush := false } } }

/-- Modelled from the spec: clear the FLUSH_SEQ flag. -/
def clear_flush_seq_flag (d : disk_write) : disk_write :=
  { d with metadata := { d.metadata with
      flags := { d.metadata.flags with flush_seq := false } } }

/-- Modelled from the spec: drop the payload buffer. -/
def clear_data (d : disk_write) : disk_write := { d with data := [] }

end disk_write

/-- Kernel sector size constant (`kKernelSectorSize`). -/
def kKernelSectorSize : Nat := 512

/-- An op in an epoch: the 0-based absolute index of the originating record
in the input trace plus the record itself (struct `epoch_op`). -/
structure epoch_op where
  abs_index : Nat
  op : disk_write
deriving DecidableEq

/-- One epoch: its ops in trace order, the count of META ops, the overlap
flag, the barrier flag and the checkpoint id in effect (struct `epoch`). -/
structure epoch where
  ops : List epoch_op
  num_meta : Nat
  overlaps : Bool
  has_barrier : Bool
  checkpoint_epoch : Int
deriving DecidableEq

/-- `Permuter::AddNewEpoch`: the freshly constructed epoch it pushes
(cleared ops, zero counters, `checkpoint_epoch` initialized to `0`). -/
def AddNewEpoch : epoch :=
  { ops := [], num_meta := 0, overlaps := false, has_barrier := false,
    checkpoint_epoch := 0 }

/-- `Permuter::CanSplitBarrier`: (FLUSH or FLUSH_SEQ) and WRITE and not FUA
and `size > 0`. -/
def CanSplitBarrier (d : disk_write) : Bool :=
  (d.has_flush_flag || d.has_flush_seq_flag) && d.has_write_flag &&
    !d.has_FUA_flag && decide (0 < d.metadata.size)

/-- `Permuter::SplitBarrier`: both halves start as copies of the input; the
second half loses any FLUSH / FLUSH_SEQ flag, the first half loses its size
and data. -/
def SplitBarrier (d : disk_write) : disk_write × disk_write :=
  let fst0 := d
  let snd0 := d
  let snd1 := if fst0.has_flush_flag then snd0.clear_flush_flag else snd0
  let snd2 := if fst0.has_flush_seq_flag then snd1.clear_flush_seq_flag else snd1
  let fst1 := { fst0 with metadata := { fst0.metadata with size := 0 } }
  (fst1.clear_data, snd2)

/-- Size of the `unsigned int` value space. -/
def u32 : Nat := 4294967296

/-- The end sector `write_sector + size - 1` as the C++ code computes it in
32-bit unsigned arithmetic (wraps when `size = 0` and `write_sector = 0`,
and truncates mod `2^32` in general). -/
def sectorEnd (d : disk_write) : Nat :=
  (d.metadata.write_sector + d.metadata.size + (u32 - 1)) % u32

/-- The interval-hit test of `Permuter::FindOverlapsAndInsert`, literally the
three-disjunct comparison from the source. -/
def rangesHit (r : Nat × Nat) (s e : Nat) : Bool :=
  (decide (r.1 ≤ s) && decide (s ≤ r.2)) ||
  (decide (r.1 ≤ e) && decide (e ≤ r.2)) ||
  (decide (s ≤ r.1) && decide (r.2 ≤ e))

/-- The scan loop of `Permuter::FindOverlapsAndInsert` over the sorted range
list: on a hit, extend the range to cover the new interval and report the
overlap; on passing a range starting after `e`, insert and report no
overlap; at the end of the list, append and report no overlap. -/
def scanRanges (s e : Nat) : List (Nat × Nat) → Bool × List (Nat × Nat)
  | [] => (false, [(s, e)])
  | r :: rest =>
    if rangesHit r s e then
      (true, (min r.1 s, max r.2 e) :: rest)
    else if e < r.1 then
      (false, (s, e) :: r :: rest)
    else
      let p := scanRanges s e rest
      (p.1, r :: p.2)

/-- `Permuter::FindOverlapsAndInsert` for a disk_write: scan with the write's
start sector and its (32-bit) end sector. -/
def FindOverlapsAndInsert (dw : disk_write) (ranges : List (Nat × Nat)) :
    Bool × List (Nat × Nat) :=
  scanRanges dw.metadata.write_sector (sectorEnd dw) ranges

/-- State of the flag-only segmentation walk: closed epochs, the optional
in-progress epoch together with its overlap-tracker range list, the current
checkpoint id and the absolute index counter. -/
structure SegState where
  done : List epoch
  cur : Option (epoch × List (Nat × Nat))
  ckpt : Int
  abs : Nat

/-- The lazily opened current epoch of the flag-only walk: the open epoch
if there is one, otherwise a fresh `AddNewEpoch` carrying the current
checkpoint id (source lines 256-262) with a cleared tracker. -/
def openCur (st : SegState) : epoch × List (Nat × Nat) :=
  match st.cur with
  | some c => c
  | none => ({ AddNewEpoch with checkpoint_epoch := st.ckpt }, [])

/-- One iteration of the `Permuter::InitDataVector` walk: open an epoch if
none is open, then dispatch on the record (checkpoint / regular write /
splittable barrier / plain barrier) exactly as the source loop does. -/
def stepFlag (st : SegState) (d : disk_write) : SegState :=
  let c := openCur st
  let cur := c.1
  let ranges := c.2
  if !d.is_barrier then
    if d.is_checkpoint then
      { done := st.done,
        cur := some ({ cur with checkpoint_epoch := st.ckpt + 1 }, ranges),
        ckpt := st.ckpt + 1, abs := st.abs + 1 }
    else
      let p := FindOverlapsAndInsert d ranges
      { done := st.done,
        cur := some ({ cur with
          ops := cur.ops ++ [⟨st.abs, d⟩],
          num_meta := cur.num_meta + (if d.is_meta then 1 else 0),
          overlaps := cur.overlaps || p.1 }, p.2),
        ckpt := st.ckpt, abs := st.abs + 1 }
  else if CanSplitBarrier d then
    let sp := SplitBarrier d
    let closed := { cur with
      ops := cur.ops ++ [⟨st.abs, sp.1⟩],
      num_meta := cur.num_meta + (if sp.1.is_meta then 1 else 0),
      has_barrier := true }
    let q := FindOverlapsAndInsert sp.2 []
    let ncur := { AddNewEpoch with
      checkpoint_epoch := st.ckpt,
      ops := [⟨st.abs, sp.2⟩],
      num_meta := (if sp.2.is_meta then 1 else 0) }
    { done := st.done ++ [closed], cur := some (ncur, q.2),
      ckpt := st.ckpt, abs := st.abs + 1 }
  else
    let closed := { cur with
      ops := cur.ops ++ [⟨st.abs, d⟩],
      num_meta := cur.num_meta + (if d.is_meta then 1 else 0),
      has_barrier := true }
    { done := st.done ++ [closed], cur := none,
      ckpt := st.ckpt, abs := st.abs + 1 }

/-- The epoch list recorded in a flag-only segmentation state (the epochs
vector of the Permuter: closed epochs plus the open one, if any). -/
def segEpochs (st : SegState) : List epoch :=
  st.done ++ (match st.cur with | some c => [c.1] | none => [])

/-- `Permuter::InitDataVector`: flag-only segmentation of a trace.  The
`sector_size` argument is stored by the source but not used by segmentation;
it is kept for signature fidelity. -/
def InitDataVector (_sector_size : Nat) (data : List disk_write) : List epoch :=
  segEpochs (data.foldl stepFlag { done := [], cur := none, ckpt := -1, abs := 0 })

/-- Soft-epoch maximum delay in nanoseconds (`kSoftEpochMaxDelayNs`, 2.5 s). -/
def kSoftEpochMaxDelayNs : Nat := 2500000000

/-- State of the soft segmentation walk: closed epochs, the in-progress
epoch and its tracker ranges, the checkpoint id, the absolute index, and
the timestamp of the last regular write (0 = sentinel). -/
structure SoftState where
  done : List epoch
  cur : epoch
  ranges : List (Nat × Nat)
  ckpt : Int
  abs : Nat
  last_time : Nat

/-- One iteration of the `Permuter::InitDataVectorSoft` walk: checkpoints
update the checkpoint id (and the epoch, only while it is still empty);
regular writes first close the epoch on a time gap of at least 2.5 s, then
append and track; barriers close the epoch (splitting when possible) and
reset the time sentinel.  The signed time difference of the source is a
difference of `Int` casts here. -/
def stepSoft (st : SoftState) (d : disk_write) : SoftState :=
  if d.is_checkpoint then
    { st with
      ckpt := st.ckpt + 1,
      cur := if st.cur.ops.length = 0 then
          { st.cur with checkpoint_epoch := st.ckpt + 1 } else st.cur,
      abs := st.abs + 1 }
  else if !d.is_barrier then
    let gap : Bool :=
      decide (0 < st.last_time) &&
      decide ((kSoftEpochMaxDelayNs : Int) ≤ (d.metadata.time_ns : Int) - (st.last_time : Int))
    let base := if gap then
        { st with
          done := st.done ++ [st.cur],
          cur := { AddNewEpoch with checkpoint_epoch := st.ckpt },
          ranges := [] }
      else st
    let p := FindOverlapsAndInsert d base.ranges
    { done := base.done,
      cur := { base.cur with
        ops := base.cur.ops ++ [⟨st.abs, d⟩],
        num_meta := base.cur.num_meta + (if d.is_meta then 1 else 0),
        overlaps := base.cur.overlaps || p.1 },
      ranges := p.2,
      ckpt := st.ckpt, abs := st.abs + 1, last_time := d.metadata.time_ns }
  else if CanSplitBarrier d then
    let sp := SplitBarrier d
    let closed := { st.cur with
      ops := st.cur.ops ++ [⟨st.abs, sp.1⟩],
      num_meta := st.cur.num_meta + (if sp.1.is_meta then 1 else 0),
      has_barrier := true }
    let q := FindOverlapsAndInsert sp.2 []
    { done := st.done ++ [closed],
      cur := { AddNewEpoch with
        checkpoint_epoch := st.ckpt,
        ops := [⟨st.abs, sp.2⟩],
        num_meta := (if sp.2.is_meta then 1 else 0) },
      ranges := q.2,
      ckpt := st.ckpt, abs := st.abs + 1, last_time := 0 }
  else
    let closed := { st.cur with
      ops := st.cur.ops ++ [⟨st.abs, d⟩],
      num_meta := st.cur.num_meta + (if d.is_meta then 1 else 0),
      has_barrier := true }
    { done := st.done ++ [closed],
      cur := { AddNewEpoch with checkpoint_epoch := st.ckpt },
      ranges := [],
      ckpt := st.ckpt, abs := st.abs + 1, last_time := 0 }

/-- `Permuter::InitDataVectorSoft`: soft segmentation.  After the walk, an
empty trailing epoch that introduced no new checkpoint is dropped (the
source pops it only when more than one epoch exists, i.e. when at least one
epoch was closed before it). -/
def InitDataVectorSoft (_sector_size : Nat) (data : List disk_write) : List epoch :=
  let fin := data.foldl stepSoft
    { done := [], cur := AddNewEpoch, ranges := [], ckpt := -1, abs := 0,
      last_time := 0 }
  match fin.done.getLast? with
  | none => fin.done ++ [fin.cur]
  | some prev =>
    if fin.cur.checkpoint_epoch = prev.checkpoint_epoch ∧ fin.cur.ops.length = 0 then
      fin.done
    else fin.done ++ [fin.cur]

/-- The replayable output record (struct `DiskWriteData` of the utils
module): whole-op flag, parent indices, disk offset, size, shared payload
and the offset into it. -/
structure DiskWriteData where
  is_whole_op : Bool
  bio_index : Nat
  bio_sector_index : Nat
  disk_offset : Nat
  size : Nat
  data : List Nat
  data_offset : Nat
deriving DecidableEq

/-- `epoch_op::ToWriteData`: whole-op conversion. -/
def epoch_op.ToWriteData (e : epoch_op) : DiskWriteData :=
  { is_whole_op := true, bio_index := e.abs_index, bio_sector_index := 0,
    disk_offset := e.op.metadata.write_sector * kKernelSectorSize,
    size := e.op.metadata.size, data := e.op.data, data_offset := 0 }

/-- A sector slice of an epoch op (struct `EpochOpSector`).  The parent
pointer is modelled by the parent value. -/
structure EpochOpSector where
  parent : epoch_op
  parent_sector_index : Nat
  disk_offset : Nat
  max_sector_size : Nat
  size : Nat
deriving DecidableEq

/-- The sector list built by `epoch_op::ToSectors` for a positive sector
size: `ceil(size / sector_size)` slices; every slice has `size =
sector_size` except the last, which gets the remaining bytes. -/
def ToSectorsList (e : epoch_op) (sector_size : Nat) : List EpochOpSector :=
  let num := (e.op.metadata.size + (sector_size - 1)) / sector_size
  (List.range num).map fun i =>
    { parent := e, parent_sector_index := i,
      disk_offset := kKernelSectorSize * e.op.metadata.write_sector + i * sector_size,
      max_sector_size := sector_size,
      size := if i = num - 1 then e.op.metadata.size - i * sector_size else sector_size }

/-- `epoch_op::ToSectors`: the source divides by `sector_size` with no
guard, so `sector_size = 0` is a division by zero (an aborting contract
violation); it is modelled as `none`. -/
def epoch_op.ToSectors (e : epoch_op) (sector_size : Nat) :
    Option (List EpochOpSector) :=
  if sector_size = 0 then none else some (ToSectorsList e sector_size)

/-- The backwards accumulation loop of `Permuter::CoalesceSectors`: walk the
(already reversed) sector list, keeping each sector whose disk offset has
not been seen yet. -/
def coalesceGo : List EpochOpSector → List Nat → List EpochOpSector
  | [], _ => []
  | x :: xs, seen =>
    if x.disk_offset ∈ seen then coalesceGo xs seen
    else x :: coalesceGo xs (x.disk_offset :: seen)

/-- `Permuter::CoalesceSectors`: iterate the list right to left collecting
first-seen offsets, then reverse the accepted subset. -/
def CoalesceSectors (l : List EpochOpSector) : List EpochOpSector :=
  (coalesceGo l.reverse []).reverse

/-- The hash vector of a whole-op crash state: its `abs_index` sequence
(`GenerateCrashState`, lines 488-492). -/
def wholeHash (cs : List epoch_op) : List Nat := cs.map epoch_op.abs_index

/-- The hash vector of a sector crash state: the interleaved
`(bio_index, bio_sector_index)` pairs (`GenerateSectorCrashState`,
lines 541-549). -/
def sectorHash (res : List DiskWriteData) : List Nat :=
  (res.map fun d => [d.bio_index, d.bio_sector_index]).flatten

/-- Result of the propose-hash-check loop shared by both generators: the
strategy's final state, the final candidate, the strategy's last verdict,
whether the candidate's hash was already memoised, and the number of
strategy invocations made. -/
structure LoopOut (σ α : Type) where
  strat : σ
  cand : α
  ns : Bool
  ex : Bool
  used : Nat

/-- The do-while loop of `GenerateCrashState` / `GenerateSectorCrashState`:
propose a state through the strategy hook `gen`, hash it, look the hash up
in the memo `completed`, and stop as soon as the strategy reports no new
state, the retry budget is exhausted, or the hash is fresh.  `fuel` is the
number of retries still allowed (the callers pass `maxRetries`, which is at
least 1000, so the `0` case is never reached from them). -/
def crashLoop {σ α : Type} (gen : σ → σ × α × Bool) (hash : α → List Nat)
    (completed : List (List Nat)) : Nat → σ → LoopOut σ α
  | 0, s =>
    let t := gen s
    { strat := t.1, cand := t.2.1, ns := t.2.2,
      ex := decide (hash t.2.1 ∈ completed), used := 1 }
  | n + 1, s =>
    let t := gen s
    let ex := decide (hash t.2.1 ∈ completed)
    if t.2.2 = false ∨ n = 0 ∨ ex = false then
      { strat := t.1, cand := t.2.1, ns := t.2.2, ex := ex, used := 1 }
    else
      let r := crashLoop gen hash completed n t.1
      { r with used := r.used + 1 }

/-- The retry budget (`kRetryMultiplier * completed_permutations_.size()`
with a floor of `kMinRetries = 1000`), literally the ternary of the source. -/
def maxRetries (completed : List (List Nat)) : Nat :=
  if 2 * completed.length < 1000 then 1000 else 2 * completed.length

/-- Outcome of one generator call: the strategy's state, the updated memo
set, the returned boolean and the produced `DiskWriteData` sequence. -/
structure GenOut (σ : Type) where
  strat : σ
  completed : List (List Nat)
  ret : Bool
  res : List DiskWriteData

/-- `Permuter::GenerateCrashState`: run the loop, convert the final
candidate to `DiskWriteData`, and if its hash is fresh memoise it and
return the strategy's verdict, otherwise return false.  The memo set
`completed_permutations_` is modelled as a duplicate-free list, the
strategy hook `gen_one_state` as the function `gen` with explicit state. -/
def GenerateCrashState {σ : Type} (gen : σ → σ × List epoch_op × Bool)
    (completed : List (List Nat)) (s : σ) : GenOut σ :=
  let r := crashLoop gen wholeHash completed (maxRetries completed) s
  let res := r.cand.map epoch_op.ToWriteData
  if r.ex = false then
    { strat := r.strat, completed := wholeHash r.cand :: completed,
      ret := r.ns, res := res }
  else
    { strat := r.strat, completed := completed, ret := false, res := res }

/-- `Permuter::GenerateSectorCrashState`: same loop against the same memo
set, hashing by interleaved `(bio_index, bio_sector_index)` pairs; the
candidate is already a `DiskWriteData` sequence. -/
def GenerateSectorCrashState {σ : Type} (gen : σ → σ × List DiskWriteData × Bool)
    (completed : List (List Nat)) (s : σ) : GenOut σ :=
  let r := crashLoop gen sectorHash completed (maxRetries completed) s
  if r.ex = false then
    { strat := r.strat, completed := sectorHash r.cand :: completed,
      ret := r.ns, res := r.cand }
  else
    { strat := r.strat, completed := completed, ret := false, res := r.cand }

/-- A sequence of generator calls on one Permuter instance: `true` selects
a whole-op call, `false` a sector call; the two strategy states and the
shared memo set are threaded through.  Each call is reported as the pair of
its hash (the `abs_index` sequence of the produced crash state for whole-op
calls, the interleaved pair sequence for sector calls) and its returned
boolean. -/
def runCalls {σw σs : Type} (genW : σw → σw × List epoch_op × Bool)
    (genS : σs → σs × List DiskWriteData × Bool) :
    List Bool → σw → σs → List (List Nat) → List (List Nat × Bool)
  | [], _, _, _ => []
  | true :: rest, sw, ss, comp =>
    let g := GenerateCrashState genW comp sw
    (g.res.map DiskWriteData.bio_index, g.ret) ::
      runCalls genW genS rest g.strat ss g.completed
  | false :: rest, sw, ss, comp =>
    let g := GenerateSectorCrashState genS comp ss
    (sectorHash g.res, g.ret) :: runCalls genW genS rest sw g.strat g.completed

/-! ### Specification-side definitions and proof-level predicates -/

/-- The sector range `[write_sector, write_sector + size - 1]` named by the
spec (mathematical reading; for `size = 0` the truncated subtraction makes
it the empty range `[w, w-1]`, and for `w = 0` the range `[0, 0]`, in both
cases containing no sector of a zero-sized write under `rangesIntersectP`
only if another range reaches it). -/
def opRange (d : disk_write) : Nat × Nat :=
  (d.metadata.write_sector, d.metadata.write_sector + d.metadata.size - 1)

/-- Two closed sector ranges intersect: some sector lies in both. -/
def rangesIntersectP (a b : Nat × Nat) : Prop :=
  ∃ x, a.1 ≤ x ∧ x ≤ a.2 ∧ b.1 ≤ x ∧ x ≤ b.2

instance (a b : Nat × Nat) : Decidable (rangesIntersectP a b) :=
  decidable_of_iff (max a.1 b.1 ≤ min a.2 b.2)
    (by
      constructor
      · intro h
        exact ⟨max a.1 b.1, le_max_left _ _, le_trans h (min_le_left _ _),
          le_max_right _ _, le_trans h (min_le_right _ _)⟩
      · rintro ⟨x, h1, h2, h3, h4⟩
        exact le_trans (max_le h1 h3) (le_min h2 h4))

/-- Some (order-independent) pair of ops of the list has intersecting
sector ranges. -/
def pairOverlapOps (l : List epoch_op) : Prop :=
  ∃ i j, ∃ hi : i < l.length, ∃ hj : j < l.length, i < j ∧
    rangesIntersectP (opRange (l.get ⟨i, hi⟩).op) (opRange (l.get ⟨j, hj⟩).op)

/-- The non-barrier ops of an epoch (the ops the segmentation loops feed
through the overlap tracker). -/
def nbOps (e : epoch) : List epoch_op :=
  e.ops.filter fun o => !o.op.is_barrier

/-- Internal pairwise form of `pairOverlapOps` over plain interval lists. -/
def PairInt (l : List (Nat × Nat)) : Prop :=
  ¬ List.Pairwise (fun a b => ¬ rangesIntersectP a b) l

instance (l : List (Nat × Nat)) : Decidable (PairInt l) :=
  inferInstanceAs (Decidable ¬ List.Pairwise (fun a b => ¬ rangesIntersectP a b) l)

/-- A sector `x` lies in some range of the tracker list. -/
def covered (rs : List (Nat × Nat)) (x : Nat) : Prop :=
  ∃ r ∈ rs, r.1 ≤ x ∧ x ≤ r.2

/-- The tracker list is ordered by range start. -/
def sortedR (rs : List (Nat × Nat)) : Prop :=
  List.Pairwise (fun a b : Nat × Nat => a.1 ≤ b.1) rs

/-- Every tracker range is non-degenerate. -/
def validR (rs : List (Nat × Nat)) : Prop := ∀ r ∈ rs, r.1 ≤ r.2

/-- Invariant tying a tracker state to the intervals already processed:
the range list is sorted and valid, it covers exactly the sectors of the
processed intervals, and the accumulated flag records whether some pair of
processed intervals intersects. -/
def TrackInv (processed : List (Nat × Nat)) (flag : Bool)
    (rs : List (Nat × Nat)) : Prop :=
  sortedR rs ∧ validR rs ∧
  (∀ x, covered rs x ↔ ∃ q ∈ processed, q.1 ≤ x ∧ x ≤ q.2) ∧
  (flag = true ↔ PairInt processed)

/-- The interval of a tracked op as the claims state it. -/
def opsIntervals (l : List epoch_op) : List (Nat × Nat) :=
  l.map fun o => opRange o.op

/-- Spec-side classification of one trace record for the abs-index
bookkeeping claim: a checkpoint record contributes no index, a split
barrier contributes its index twice (once per half), and every other
record contributes its index once. -/
def classifyIdx (d : disk_write) (n : Nat) : List Nat :=
  if d.is_checkpoint then [] else if CanSplitBarrier d then [n, n] else [n]

/-- Spec-side expected abs-index sequence of a whole trace starting at
index `n`. -/
def expectedIndices : List disk_write → Nat → List Nat
  | [], _ => []
  | d :: rest, n => classifyIdx d n ++ expectedIndices rest (n + 1)

/-- The concatenated `abs_index` sequence of an epoch list. -/
def absSeq (es : List epoch) : List Nat :=
  (es.map fun e => e.ops.map epoch_op.abs_index).flatten

/-- Spec-side last-writer-wins filter: keep a sector exactly when its
`disk_offset` does not occur again later in the list; the relative order of
kept sectors is preserved. -/
def keepLastOccurrence : List EpochOpSector → List EpochOpSector
  | [] => []
  | x :: xs =>
    if x.disk_offset ∈ xs.map EpochOpSector.disk_offset then keepLastOccurrence xs
    else x :: keepLastOccurrence xs

/-- Generalisation of `keepLastOccurrence` with a set of offsets that are
considered already taken. -/
def keepLastSeen : List EpochOpSector → List Nat → List EpochOpSector
  | [], _ => []
  | x :: xs, seen =>
    if x.disk_offset ∈ xs.map EpochOpSector.disk_offset ∨ x.disk_offset ∈ seen then
      keepLastSeen xs seen
    else x :: keepLastSeen xs seen

/-! ### Concrete fixtures used by witnesses and counterexamples -/

/-- Flag set of a plain data write. -/
def writeFlags : DWFlags :=
  { write := true, flush := false, flush_seq := false, fua := false,
    meta := false, checkpoint := false }

/-- A plain write record at the given sector, size and time. -/
def mkWrite (sec sz t : Nat) : disk_write := ⟨⟨sec, sz, t, writeFlags⟩, []⟩

/-- A WRITE plus FUA record (an unsplittable barrier). -/
def mkFuaWrite (sec sz t : Nat) : disk_write :=
  ⟨⟨sec, sz, t, { writeFlags with fua := true }⟩, []⟩

/-- A WRITE plus FLUSH record with payload bytes (a splittable barrier). -/
def mkFlushWrite (sec sz t : Nat) (payload : List Nat) : disk_write :=
  ⟨⟨sec, sz, t, { writeFlags with flush := true }⟩, payload⟩

/-- Counterexample trace: a plain write followed by an unsplittable FUA
barrier covering the same sectors. -/
def cxBarrierTrace : List disk_write := [mkWrite 0 8 0, mkFuaWrite 0 8 0]

/-- Counterexample trace: a zero-sized write (whose 32-bit end sector wraps
below its start) followed by a write at the preceding sector. -/
def cxZeroTrace : List disk_write := [mkWrite 5 0 0, mkWrite 4 1 0]

/-- Two plain writes 3 seconds apart: a soft-epoch boundary with no
barrier. -/
def softGapTrace : List disk_write :=
  [mkWrite 0 512 1000000000, mkWrite 0 512 4000000000]

/-- A single plain write (no checkpoint records anywhere). -/
def singleWriteTrace : List disk_write := [mkWrite 0 512 5]

/-- A trace whose flag-only segmentation yields two epochs: a write, a FUA
barrier closing the first epoch, and a trailing write. -/
def c6Trace : List disk_write := [mkWrite 0 8 0, mkFuaWrite 0 8 0, mkWrite 0 8 5]

/-- Two overlapping writes followed by a FUA barrier (spec scenario 4). -/
def overlapTrace : List disk_write :=
  [mkWrite 0 1024 0, mkWrite 1 1024 0, mkFuaWrite 100 512 0]

/-- A checkpoint marker record (CHECKPOINT flag only, no payload). -/
def mkCkpt : disk_write :=
  ⟨⟨0, 0, 0, { writeFlags with write := false, checkpoint := true }⟩, []⟩

/-- A trace exercising all abs-index cases: a write, a checkpoint, a
splittable barrier and a final write. -/
def c3Trace : List disk_write :=
  [mkWrite 0 8 0, mkCkpt, mkFlushWrite 8 8 0 [1], mkWrite 0 8 0]

/-- Constant whole-op strategy proposing ops with abs indices 0 and 1. -/
def constWholeGen : Unit → Unit × List epoch_op × Bool :=
  fun _ => ((), [⟨0, mkWrite 0 8 0⟩, ⟨1, mkWrite 8 8 0⟩], true)

/-- Constant sector strategy proposing one sector write with
`(bio_index, bio_sector_index) = (0, 1)`, so its flattened hash equals the
abs-index sequence `[0, 1]` of `constWholeGen`'s proposal. -/
def constSectorGen : Unit → Unit × List DiskWriteData × Bool :=
  fun _ => ((),
    [{ is_whole_op := false, bio_index := 0, bio_sector_index := 1,
       disk_offset := 0, size := 512, data := [], data_offset := 0 }], true)

/-- A concrete epoch op over a 1024-byte write at sector 0. -/
def opFix : epoch_op := ⟨0, mkWrite 0 1024 0⟩

/-- A concrete splittable barrier: WRITE plus FLUSH with a payload. -/
def dC2 : disk_write := mkFlushWrite 8 4096 0 [7]

/-- A concrete plain write following the barrier. -/
def wC2 : disk_write := mkWrite 0 512 0

/-- A concrete flag-segmentation state with an open epoch. -/
def stC2 : SegState :=
  { done := [], cur := some (AddNewEpoch, []), ckpt := -1, abs := 0 }

/-! ## Basic lemmas about barrier splitting -/

theorem splitBarrier_fst_eq (d : disk_write) :
    (SplitBarrier d).1 =
      { d with metadata := { d.metadata with size := 0 }, data := [] } := by
  obtain ⟨⟨ws, sz, t, ⟨w, f, fs, fu, m, ck⟩⟩, dat⟩ := d
  cases f <;> cases fs <;>
    simp [SplitBarrier, disk_write.has_flush_flag, disk_write.has_flush_seq_flag,
      disk_write.clear_flush_flag, disk_write.clear_flush_seq_flag,
      disk_write.clear_data]

theorem splitBarrier_snd_eq (d : disk_write) :
    (SplitBarrier d).2 =
      { d with metadata := { d.metadata with
          flags := { d.metadata.flags with flush := false, flush_seq := false } } } := by
  obtain ⟨⟨ws, sz, t, ⟨w, f, fs, fu, m, ck⟩⟩, dat⟩ := d
  cases f <;> cases fs <;>
    simp [SplitBarrier, disk_write.has_flush_flag, disk_write.has_flush_seq_flag,
      disk_write.clear_flush_flag, disk_write.clear_flush_seq_flag,
      disk_write.clear_data]

theorem canSplit_is_barrier (d : disk_write) (h : CanSplitBarrier d = true) :
    d.is_barrier = true := by
  simp only [CanSplitBarrier, Bool.and_eq_true, Bool.or_eq_true,
    disk_write.has_flush_flag, disk_write.has_flush_seq_flag] at h
  simp only [disk_write.is_barrier, Bool.or_eq_true]
  rcases h with ⟨⟨⟨hf, _⟩, _⟩, _⟩
  exact Or.inl hf

theorem canSplit_snd_not_barrier (d : disk_write) (h : CanSplitBarrier d = true) :
    (SplitBarrier d).2.is_barrier = false := by
  simp only [CanSplitBarrier, Bool.and_eq_true, Bool.not_eq_true',
    disk_write.has_FUA_flag] at h
  simp [splitBarrier_snd_eq, disk_write.is_barrier, h.1.2]

theorem canSplit_fst_barrier (d : disk_write) (h : CanSplitBarrier d = true) :
    (SplitBarrier d).1.is_barrier = true := by
  simp only [CanSplitBarrier, Bool.and_eq_true, Bool.or_eq_true,
    disk_write.has_flush_flag, disk_write.has_flush_seq_flag] at h
  simp only [splitBarrier_fst_eq, disk_write.is_barrier, Bool.or_eq_true]
  rcases h with ⟨⟨⟨hf, _⟩, _⟩, _⟩
  exact Or.inl hf

/-- C2: a splittable barrier is split into a zero-size, data-free half that
retains FLUSH/FLUSH_SEQ and is appended (under the original `abs_index`) to
the current epoch, which gains `has_barrier = true`; and a second half with
the original data and size, FLUSH/FLUSH_SEQ cleared and all other flags
preserved, appended under the same `abs_index` to a newly opened epoch; a
subsequent non-barrier write joins that same new epoch. -/
theorem c2_split_barrier (d w : disk_write) (st : SegState) (c : epoch)
    (rs : List (Nat × Nat)) (hd : CanSplitBarrier d = true)
    (hcur : st.cur = some (c, rs)) (hw : w.is_barrier = false)
    (hwc : w.is_checkpoint = false) :
    ((SplitBarrier d).1.metadata.size = 0 ∧ (SplitBarrier d).1.data = [] ∧
      (SplitBarrier d).1.has_flush_flag = d.has_flush_flag ∧
      (SplitBarrier d).1.has_flush_seq_flag = d.has_flush_seq_flag ∧
      (SplitBarrier d).2.data = d.data ∧
      (SplitBarrier d).2.metadata.size = d.metadata.size ∧
      (SplitBarrier d).2.has_flush_flag = false ∧
      (SplitBarrier d).2.has_flush_seq_flag = false ∧
      (SplitBarrier d).2.has_write_flag = d.has_write_flag ∧
      (SplitBarrier d).2.has_FUA_flag = d.has_FUA_flag ∧
      (SplitBarrier d).2.is_meta = d.is_meta ∧
      (SplitBarrier d).2.is_checkpoint = d.is_checkpoint) ∧
    (stepFlag st d).done = st.done ++
      [{ c with
          ops := c.ops ++ [⟨st.abs, (SplitBarrier d).1⟩],
          num_meta := c.num_meta + (if (SplitBarrier d).1.is_meta then 1 else 0),
          has_barrier := true }] ∧
    (stepFlag st d).cur.map (fun q => q.1) = some
      { AddNewEpoch with
          checkpoint_epoch := st.ckpt,
          ops := [⟨st.abs, (SplitBarrier d).2⟩],
          num_meta := (if (SplitBarrier d).2.is_meta then 1 else 0) } ∧
    (stepFlag (stepFlag st d) w).done = (stepFlag st d).done ∧
    (stepFlag (stepFlag st d) w).cur.map (fun q => q.1.ops) =
      some [⟨st.abs, (SplitBarrier d).2⟩, ⟨st.abs + 1, w⟩] := by
  have hbar := canSplit_is_barrier d hd
  refine ⟨?_, ?_, ?_, ?_, ?_⟩
  · refine ⟨?_, ?_, ?_, ?_, ?_, ?_, ?_, ?_, ?_, ?_, ?_, ?_⟩ <;>
      simp [splitBarrier_fst_eq, splitBarrier_snd_eq, disk_write.has_flush_flag,
        disk_write.has_flush_seq_flag, disk_write.has_write_flag,
        disk_write.has_FUA_flag, disk_write.is_meta, disk_write.is_checkpoint]
  · simp [stepFlag, openCur, hcur, hbar, hd]
  · simp [stepFlag, openCur, hcur, hbar, hd]
  · simp [stepFlag, openCur, hcur, hbar, hd, hw, hwc]
  · simp [stepFlag, openCur, hcur, hbar, hd, hw, hwc]

theorem c2_split_barrier_witness :
    (CanSplitBarrier dC2 = true ∧ stC2.cur = some (AddNewEpoch, []) ∧
      wC2.is_barrier = false ∧ wC2.is_checkpoint = false) ∧
    (((SplitBarrier dC2).1.metadata.size = 0 ∧ (SplitBarrier dC2).1.data = [] ∧
      (SplitBarrier dC2).1.has_flush_flag = dC2.has_flush_flag ∧
      (SplitBarrier dC2).1.has_flush_seq_flag = dC2.has_flush_seq_flag ∧
      (SplitBarrier dC2).2.data = dC2.data ∧
      (SplitBarrier dC2).2.metadata.size = dC2.metadata.size ∧
      (SplitBarrier dC2).2.has_flush_flag = false ∧
      (SplitBarrier dC2).2.has_flush_seq_flag = false ∧
      (SplitBarrier dC2).2.has_write_flag = dC2.has_write_flag ∧
      (SplitBarrier dC2).2.has_FUA_flag = dC2.has_FUA_flag ∧
      (SplitBarrier dC2).2.is_meta = dC2.is_meta ∧
      (SplitBarrier dC2).2.is_checkpoint = dC2.is_checkpoint) ∧
    (stepFlag stC2 dC2).done = stC2.done ++
      [{ AddNewEpoch with
          ops := AddNewEpoch.ops ++ [⟨stC2.abs, (SplitBarrier dC2).1⟩],
          num_meta := AddNewEpoch.num_meta +
            (if (SplitBarrier dC2).1.is_meta then 1 else 0),
          has_barrier := true }] ∧
    (stepFlag stC2 dC2).cur.map (fun q => q.1) = some
      { AddNewEpoch with
          checkpoint_epoch := stC2.ckpt,
          ops := [⟨stC2.abs, (SplitBarrier dC2).2⟩],
          num_meta := (if (SplitBarrier dC2).2.is_meta then 1 else 0) } ∧
    (stepFlag (stepFlag stC2 dC2) wC2).done = (stepFlag stC2 dC2).done ∧
    (stepFlag (stepFlag stC2 dC2) wC2).cur.map (fun q => q.1.ops) =
      some [⟨stC2.abs, (SplitBarrier dC2).2⟩, ⟨stC2.abs + 1, wC2⟩]) :=
  ⟨⟨by decide, rfl, by decide, by decide⟩,
    c2_split_barrier dC2 wC2 stC2 AddNewEpoch [] (by decide) rfl
      (by decide) (by decide)⟩

/-! ## Sector decomposition (C9) -/

/-- C9: a sector decomposition with `sector_size = 0` reaches the division
by zero of the source (a contract violation, modelled `none`) instead of
proceeding; for a positive sector size the decomposition always succeeds
and the per-sector size computation of the last slice never underflows. -/
theorem c9_to_sectors (e : epoch_op) :
    e.ToSectors 0 = none ∧
    ∀ ss, 0 < ss →
      e.ToSectors ss = some (ToSectorsList e ss) ∧
      ((e.op.metadata.size + (ss - 1)) / ss - 1) * ss ≤ e.op.metadata.size := by
  refine ⟨by simp [epoch_op.ToSectors], fun ss hss => ⟨?_, ?_⟩⟩
  · simp [epoch_op.ToSectors, Nat.pos_iff_ne_zero.mp hss]
  · set m := (e.op.metadata.size + (ss - 1)) / ss with hm
    have h1 : m * ss ≤ e.op.metadata.size + (ss - 1) := Nat.div_mul_le_self _ _
    have h2 : (m - 1) * ss = m * ss - 1 * ss := Nat.sub_mul _ _ _
    rw [h2, one_mul]
    generalize m * ss = t at h1 ⊢
    omega

theorem c9_to_sectors_witness :
    0 < 512 ∧
    (opFix.ToSectors 512 = some (ToSectorsList opFix 512) ∧
      ((opFix.op.metadata.size + (512 - 1)) / 512 - 1) * 512 ≤
        opFix.op.metadata.size) :=
  ⟨by decide, (c9_to_sectors opFix).2 512 (by decide)⟩

/-! ## Sector coalescing (C8) -/

theorem coalesceGo_append (x : EpochOpSector) :
    ∀ (m : List EpochOpSector) (seen : List Nat),
    coalesceGo (m ++ [x]) seen = coalesceGo m seen ++
      (if x.disk_offset ∈ seen ∨ x.disk_offset ∈ m.map EpochOpSector.disk_offset
        then [] else [x])
  | [], seen => by
    by_cases h : x.disk_offset ∈ seen <;> simp [coalesceGo, h]
  | y :: m, seen => by
    by_cases hy : y.disk_offset ∈ seen
    · have hiff : (x.disk_offset ∈ seen ∨
          x.disk_offset ∈ (y :: m).map EpochOpSector.disk_offset) ↔
          (x.disk_offset ∈ seen ∨ x.disk_offset ∈ m.map EpochOpSector.disk_offset) := by
        simp only [List.map_cons, List.mem_cons]
        constructor
        · rintro (h | h | h)
          · exact Or.inl h
          · exact Or.inl (h ▸ hy)
          · exact Or.inr h
        · rintro (h | h)
          · exact Or.inl h
          · exact Or.inr (Or.inr h)
      calc coalesceGo ((y :: m) ++ [x]) seen = coalesceGo (m ++ [x]) seen := by
            simp [coalesceGo, hy]
        _ = coalesceGo m seen ++
            (if x.disk_offset ∈ seen ∨
                x.disk_offset ∈ m.map EpochOpSector.disk_offset
              then [] else [x]) := coalesceGo_append x m seen
        _ = coalesceGo (y :: m) seen ++
            (if x.disk_offset ∈ seen ∨
                x.disk_offset ∈ (y :: m).map EpochOpSector.disk_offset
              then [] else [x]) := by
            rw [if_congr hiff rfl rfl]; simp [coalesceGo, hy]
    · have hiff : (x.disk_offset ∈ (y.disk_offset :: seen) ∨
          x.disk_offset ∈ m.map EpochOpSector.disk_offset) ↔
          (x.disk_offset ∈ seen ∨
            x.disk_offset ∈ (y :: m).map EpochOpSector.disk_offset) := by
        simp only [List.map_cons, List.mem_cons]
        tauto
      calc coalesceGo ((y :: m) ++ [x]) seen
          = y :: coalesceGo (m ++ [x]) (y.disk_offset :: seen) := by
            simp [coalesceGo, hy]
        _ = y :: (coalesceGo m (y.disk_offset :: seen) ++
            (if x.disk_offset ∈ (y.disk_offset :: seen) ∨
                x.disk_offset ∈ m.map EpochOpSector.disk_offset
              then [] else [x])) := by
            rw [coalesceGo_append x m (y.disk_offset :: seen)]
        _ = (y :: coalesceGo m (y.disk_offset :: seen)) ++
            (if x.disk_offset ∈ seen ∨
                x.disk_offset ∈ (y :: m).map EpochOpSector.disk_offset
              then [] else [x]) := by
            rw [if_congr hiff rfl rfl]; simp
        _ = coalesceGo (y :: m) seen ++
            (if x.disk_offset ∈ seen ∨
                x.disk_offset ∈ (y :: m).map EpochOpSector.disk_offset
              then [] else [x]) := by
            simp [coalesceGo, hy]

theorem coalesceGo_reverse :
    ∀ (l : List EpochOpSector) (seen : List Nat),
    (coalesceGo l.reverse seen).reverse = keepLastSeen l seen
  | [], seen => by simp [coalesceGo, keepLastSeen]
  | x :: xs, seen => by
    rw [List.reverse_cons, coalesceGo_append x xs.reverse seen]
    have hm : (x.disk_offset ∈ seen ∨
        x.disk_offset ∈ xs.reverse.map EpochOpSector.disk_offset) ↔
        (x.disk_offset ∈ xs.map EpochOpSector.disk_offset ∨ x.disk_offset ∈ seen) := by
      rw [List.map_reverse, List.mem_reverse]
      tauto
    rw [List.reverse_append, if_congr hm rfl rfl]
    simp only [keepLastSeen]
    by_cases h : x.disk_offset ∈ xs.map EpochOpSector.disk_offset ∨ x.disk_offset ∈ seen
    · simp only [if_pos h, List.reverse_nil, List.nil_append,
        coalesceGo_reverse xs seen]
    · simp only [if_neg h, List.reverse_singleton, List.singleton_append,
        coalesceGo_reverse xs seen]

theorem keepLastSeen_nil_seen :
    ∀ l : List EpochOpSector, keepLastSeen l [] = keepLastOccurrence l
  | [] => rfl
  | x :: xs => by
    by_cases h : x.disk_offset ∈ xs.map EpochOpSector.disk_offset <;>
      simp [keepLastSeen, keepLastOccurrence, h, keepLastSeen_nil_seen xs]

theorem coalesce_eq_keepLast (l : List EpochOpSector) :
    CoalesceSectors l = keepLastOccurrence l := by
  rw [CoalesceSectors, coalesceGo_reverse, keepLastSeen_nil_seen]

theorem keepLast_of_nodup :
    ∀ l : List EpochOpSector, (l.map EpochOpSector.disk_offset).Nodup →
      keepLastOccurrence l = l
  | [], _ => rfl
  | x :: xs, h => by
    rw [List.map_cons, List.nodup_cons] at h
    simp [keepLastOccurrence, h.1, keepLast_of_nodup xs h.2]

theorem toSectorsList_offsets_nodup (e : epoch_op) (ss : Nat) (hss : 0 < ss) :
    ((ToSectorsList e ss).map EpochOpSector.disk_offset).Nodup := by
  rw [ToSectorsList, List.map_map]
  have : (EpochOpSector.disk_offset ∘ fun i =>
      ({ parent := e, parent_sector_index := i,
         disk_offset := kKernelSectorSize * e.op.metadata.write_sector + i * ss,
         max_sector_size := ss,
         size := if i = (e.op.metadata.size + (ss - 1)) / ss - 1 then
             e.op.metadata.size - i * ss else ss } : EpochOpSector)) =
      fun i => kKernelSectorSize * e.op.metadata.write_sector + i * ss := rfl
  rw [this]
  refine List.Nodup.map ?_ (List.nodup_range _)
  intro i j hij
  have h1 : i * ss = j * ss := Nat.add_left_cancel hij
  exact Nat.eq_of_mul_eq_mul_right hss h1

/-- C8: `CoalesceSectors` returns exactly the last-writer-wins subset
(for each distinct `disk_offset`, the latest occurrence in input order,
relative order preserved), and on the sector decomposition of a single op
whose size is an exact multiple of the sector size it keeps every sector
(one per unique `disk_offset`). -/
theorem c8_coalesce (l : List EpochOpSector) (e : epoch_op) (ss k : Nat)
    (hss : 0 < ss) (hsize : e.op.metadata.size = k * ss) :
    CoalesceSectors l = keepLastOccurrence l ∧
    CoalesceSectors (ToSectorsList e ss) = ToSectorsList e ss := by
  refine ⟨coalesce_eq_keepLast l, ?_⟩
  rw [coalesce_eq_keepLast,
    keepLast_of_nodup _ (toSectorsList_offsets_nodup e ss hss)]

theorem c8_coalesce_witness :
    (0 < 512 ∧ opFix.op.metadata.size = 2 * 512) ∧
    (CoalesceSectors (ToSectorsList opFix 512) = ToSectorsList opFix 512 ∧
      CoalesceSectors (ToSectorsList opFix 512) = keepLastOccurrence (ToSectorsList opFix 512)) :=
  ⟨⟨by decide, by decide⟩,
    (c8_coalesce (ToSectorsList opFix 512) opFix 512 2 (by decide) (by decide)).2,
    (c8_coalesce (ToSectorsList opFix 512) opFix 512 2 (by decide) (by decide)).1⟩

/-! ## Crash-state generation (C4, C5, C10) -/

theorem crashLoop_bound {σ α : Type} (gen : σ → σ × α × Bool)
    (hash : α → List Nat) (completed : List (List Nat)) :
    ∀ (n : Nat) (s : σ), 1 ≤ n →
      (crashLoop gen hash completed n s).used ≤ n ∧
      ((crashLoop gen hash completed n s).ns = false ∨
        (crashLoop gen hash completed n s).used = n ∨
        (crashLoop gen hash completed n s).ex = false)
  | 0, _, h => absurd h (by omega)
  | n + 1, s, _ => by
    simp only [crashLoop]
    by_cases hc : (gen s).2.2 = false ∨ n = 0 ∨
        decide (hash (gen s).2.1 ∈ completed) = false
    · rw [if_pos hc]
      rcases hc with h | h | h
      · exact ⟨Nat.succ_le_succ (Nat.zero_le n), Or.inl h⟩
      · exact ⟨Nat.succ_le_succ (Nat.zero_le n), Or.inr (Or.inl (by subst h; rfl))⟩
      · exact ⟨Nat.succ_le_succ (Nat.zero_le n), Or.inr (Or.inr h)⟩
    · rw [if_neg hc]
      have hn : 1 ≤ n := by
        rcases Nat.eq_zero_or_pos n with h0 | h0
        · exact absurd (Or.inr (Or.inl h0)) hc
        · exact h0
      have IH := crashLoop_bound gen hash completed n (gen s).1 hn
      refine ⟨Nat.add_le_add_right IH.1 1, ?_⟩
      rcases IH.2 with h | h | h
      · exact Or.inl h
      · exact Or.inr (Or.inl (congrArg (· + 1) h))
      · exact Or.inr (Or.inr h)

/-- C5: each generator call computes a retry budget of
`max(1000, 2 * |completed|)` once at entry, invokes the strategy hook at
most that many times, and its proposal loop exits with the strategy having
returned false, the budget exhausted, or the candidate's hash fresh. -/
theorem c5_retry_bound {σw σs : Type} (genW : σw → σw × List epoch_op × Bool)
    (genS : σs → σs × List DiskWriteData × Bool)
    (completed : List (List Nat)) (sw : σw) (ss : σs) :
    maxRetries completed = max 1000 (2 * completed.length) ∧
    (crashLoop genW wholeHash completed (maxRetries completed) sw).used ≤
      maxRetries completed ∧
    ((crashLoop genW wholeHash completed (maxRetries completed) sw).ns = false ∨
      (crashLoop genW wholeHash completed (maxRetries completed) sw).used =
        maxRetries completed ∨
      (crashLoop genW wholeHash completed (maxRetries completed) sw).ex = false) ∧
    (crashLoop genS sectorHash completed (maxRetries completed) ss).used ≤
      maxRetries completed ∧
    ((crashLoop genS sectorHash completed (maxRetries completed) ss).ns = false ∨
      (crashLoop genS sectorHash completed (maxRetries completed) ss).used =
        maxRetries completed ∨
      (crashLoop genS sectorHash completed (maxRetries completed) ss).ex = false) := by
  have hmax : maxRetries completed = max 1000 (2 * completed.length) := by
    rw [maxRetries, Nat.max_def]
    split_ifs <;> omega
  have h1 : 1 ≤ maxRetries completed := by
    rw [maxRetries]; split <;> omega
  have hw := crashLoop_bound genW wholeHash completed (maxRetries completed) sw h1
  have hs := crashLoop_bound genS sectorHash completed (maxRetries completed) ss h1
  exact ⟨hmax, hw.1, hw.2, hs.1, hs.2⟩

theorem crashLoop_ex_eq {σ α : Type} (gen : σ → σ × α × Bool)
    (hash : α → List Nat) (completed : List (List Nat)) :
    ∀ (n : Nat) (s : σ),
      (crashLoop gen hash completed n s).ex =
        decide (hash (crashLoop gen hash completed n s).cand ∈ completed)
  | 0, s => rfl
  | n + 1, s => by
    simp only [crashLoop]
    by_cases hc : (gen s).2.2 = false ∨ n = 0 ∨
        decide (hash (gen s).2.1 ∈ completed) = false
    · rw [if_pos hc]
    · rw [if_neg hc]
      exact crashLoop_ex_eq gen hash completed n (gen s).1

theorem generateCrash_spec {σ : Type} (gen : σ → σ × List epoch_op × Bool)
    (comp : List (List Nat)) (s : σ) :
    comp ⊆ (GenerateCrashState gen comp s).completed ∧
    ((GenerateCrashState gen comp s).ret = true →
      ((GenerateCrashState gen comp s).res.map DiskWriteData.bio_index) ∉ comp ∧
      (GenerateCrashState gen comp s).completed =
        ((GenerateCrashState gen comp s).res.map DiskWriteData.bio_index) :: comp) := by
  have hmap : ∀ cs : List epoch_op,
      (cs.map epoch_op.ToWriteData).map DiskWriteData.bio_index = wholeHash cs := by
    intro cs
    rw [List.map_map]
    rfl
  have hex := crashLoop_ex_eq gen wholeHash comp (maxRetries comp) s
  rw [GenerateCrashState]
  by_cases h : (crashLoop gen wholeHash comp (maxRetries comp) s).ex = false
  · rw [if_pos h]
    have hnotmem : wholeHash (crashLoop gen wholeHash comp (maxRetries comp) s).cand ∉ comp := by
      rw [h] at hex
      exact of_decide_eq_false hex.symm
    refine ⟨List.subset_cons_self _ _, fun _ => ⟨?_, ?_⟩⟩
    · simpa [hmap] using hnotmem
    · simp [hmap]
  · rw [if_neg h]
    exact ⟨List.Subset.refl _, fun hcontra => absurd hcontra (by simp)⟩

theorem generateSector_spec {σ : Type} (gen : σ → σ × List DiskWriteData × Bool)
    (comp : List (List Nat)) (s : σ) :
    comp ⊆ (GenerateSectorCrashState gen comp s).completed ∧
    ((GenerateSectorCrashState gen comp s).ret = true →
      sectorHash (GenerateSectorCrashState gen comp s).res ∉ comp ∧
      (GenerateSectorCrashState gen comp s).completed =
        sectorHash (GenerateSectorCrashState gen comp s).res :: comp) := by
  have hex := crashLoop_ex_eq gen sectorHash comp (maxRetries comp) s
  rw [GenerateSectorCrashState]
  by_cases h : (crashLoop gen sectorHash comp (maxRetries comp) s).ex = false
  · rw [if_pos h]
    have hnotmem : sectorHash (crashLoop gen sectorHash comp (maxRetries comp) s).cand ∉ comp := by
      rw [h] at hex
      exact of_decide_eq_false hex.symm
    exact ⟨List.subset_cons_self _ _, fun _ => ⟨hnotmem, rfl⟩⟩
  · rw [if_neg h]
    exact ⟨List.Subset.refl _, fun hcontra => absurd hcontra (by simp)⟩

theorem runCalls_fresh {σw σs : Type} (genW : σw → σw × List epoch_op × Bool)
    (genS : σs → σs × List DiskWriteData × Bool) :
    ∀ (calls : List Bool) (sw : σw) (ss : σs) (comp : List (List Nat)),
      List.Pairwise (fun a b => ¬(a.2 = true ∧ b.2 = true ∧ a.1 = b.1))
        (runCalls genW genS calls sw ss comp) ∧
      (∀ p ∈ runCalls genW genS calls sw ss comp, p.2 = true → p.1 ∉ comp)
  | [], _, _, _ => by simp [runCalls]
  | true :: rest, sw, ss, comp => by
    have hspec := generateCrash_spec genW comp sw
    have IH := runCalls_fresh genW genS rest
      (GenerateCrashState genW comp sw).strat ss
      (GenerateCrashState genW comp sw).completed
    rw [runCalls]
    constructor
    · rw [List.pairwise_cons]
      refine ⟨?_, IH.1⟩
      rintro b hb ⟨hr, hb2, heq⟩
      have hmem : (GenerateCrashState genW comp sw).res.map DiskWriteData.bio_index ∈
          (GenerateCrashState genW comp sw).completed := by
        rw [(hspec.2 hr).2]
        exact List.mem_cons_self _ _
      exact (IH.2 b hb hb2) (heq ▸ hmem)
    · intro p hp htrue
      rcases List.mem_cons.mp hp with h | h
      · subst h
        exact (hspec.2 htrue).1
      · intro hmem
        exact (IH.2 p h htrue) (hspec.1 hmem)
  | false :: rest, sw, ss, comp => by
    have hspec := generateSector_spec genS comp ss
    have IH := runCalls_fresh genW genS rest sw
      (GenerateSectorCrashState genS comp ss).strat
      (GenerateSectorCrashState genS comp ss).completed
    rw [runCalls]
    constructor
    · rw [List.pairwise_cons]
      refine ⟨?_, IH.1⟩
      rintro b hb ⟨hr, hb2, heq⟩
      have hmem : sectorHash (GenerateSectorCrashState genS comp ss).res ∈
          (GenerateSectorCrashState genS comp ss).completed := by
        rw [(hspec.2 hr).2]
        exact List.mem_cons_self _ _
      exact (IH.2 b hb hb2) (heq ▸ hmem)
    · intro p hp htrue
      rcases List.mem_cons.mp hp with h | h
      · subst h
        exact (hspec.2 htrue).1
      · intro hmem
        exact (IH.2 p h htrue) (hspec.1 hmem)

/-- C4: over any sequence of whole-op and sector calls on one Permuter
instance (shared memo set, initially empty), no two calls that return true
report the same hash (abs-index sequence for whole-op calls, interleaved
`(bio_index, bio_sector_index)` pairs for sector calls). -/
theorem c4_unique_states {σw σs : Type} (genW : σw → σw × List epoch_op × Bool)
    (genS : σs → σs × List DiskWriteData × Bool) (calls : List Bool)
    (sw : σw) (ss : σs) :
    List.Pairwise (fun a b => ¬(a.2 = true ∧ b.2 = true ∧ a.1 = b.1))
      (runCalls genW genS calls sw ss []) :=
  (runCalls_fresh genW genS calls sw ss []).1

theorem crashLoop_stale {σ α : Type} (gen : σ → σ × α × Bool)
    (hash : α → List Nat) (comp : List (List Nat))
    (hst : ∀ s, hash (gen s).2.1 ∈ comp) :
    ∀ (n : Nat) (s : σ), (crashLoop gen hash comp n s).ex = true
  | 0, s => decide_eq_true (hst s)
  | n + 1, s => by
    simp only [crashLoop]
    by_cases hc : (gen s).2.2 = false ∨ n = 0 ∨
        decide (hash (gen s).2.1 ∈ comp) = false
    · rw [if_pos hc]
      exact decide_eq_true (hst s)
    · rw [if_neg hc]
      exact crashLoop_stale gen hash comp hst n (gen s).1

/-- C10: the two generators deduplicate against one shared memo set: after
a whole-op call is accepted, a sector call whose every proposal flattens to
the very hash vector that whole-op call memoised finds no fresh hash within
its retry budget and returns false. -/
theorem c10_shared_memo {σw σs : Type} (genW : σw → σw × List epoch_op × Bool)
    (genS : σs → σs × List DiskWriteData × Bool) (sw : σw) (ss : σs)
    (h1 : (GenerateCrashState genW [] sw).ret = true)
    (h2 : ∀ s : σs, sectorHash ((genS s).2.1) =
      (GenerateCrashState genW [] sw).res.map DiskWriteData.bio_index) :
    ((GenerateCrashState genW [] sw).res.map DiskWriteData.bio_index) ∈
      (GenerateCrashState genW [] sw).completed ∧
    (GenerateSectorCrashState genS
      (GenerateCrashState genW [] sw).completed ss).ret = false := by
  have hspec := (generateCrash_spec genW [] sw).2 h1
  have hmem : ((GenerateCrashState genW [] sw).res.map DiskWriteData.bio_index) ∈
      (GenerateCrashState genW [] sw).completed := by
    rw [hspec.2]
    exact List.mem_cons_self _ _
  refine ⟨hmem, ?_⟩
  have hst : ∀ s : σs, sectorHash ((genS s).2.1) ∈
      (GenerateCrashState genW [] sw).completed := fun s => (h2 s) ▸ hmem
  have hex := crashLoop_stale genS sectorHash
    (GenerateCrashState genW [] sw).completed hst
    (maxRetries (GenerateCrashState genW [] sw).completed) ss
  rw [GenerateSectorCrashState, if_neg (by rw [hex]; exact fun h => nomatch h)]

theorem c10_shared_memo_witness :
    ((GenerateCrashState constWholeGen [] ()).ret = true ∧
      ∀ s : Unit, sectorHash ((constSectorGen s).2.1) =
        (GenerateCrashState constWholeGen [] ()).res.map DiskWriteData.bio_index) ∧
    (((GenerateCrashState constWholeGen [] ()).res.map DiskWriteData.bio_index) ∈
        (GenerateCrashState constWholeGen [] ()).completed ∧
      (GenerateSectorCrashState constSectorGen
        (GenerateCrashState constWholeGen [] ()).completed ()).ret = false) :=
  ⟨⟨rfl, fun _ => rfl⟩,
    c10_shared_memo constWholeGen constSectorGen () () rfl (fun _ => rfl)⟩

/-! ## Epoch barrier flags (C6) -/

theorem stepFlag_done_barrier (st : SegState) (d : disk_write)
    (h : ∀ e ∈ st.done, e.has_barrier = true) :
    ∀ e ∈ (stepFlag st d).done, e.has_barrier = true := by
  intro e he
  simp only [stepFlag] at he
  split at he
  · split at he <;> exact h e he
  · split at he <;>
    · rcases List.mem_append.mp he with h1 | h1
      · exact h e h1
      · simp only [List.mem_singleton] at h1
        subst h1
        rfl

theorem foldl_stepFlag_done_barrier :
    ∀ (data : List disk_write) (st : SegState),
      (∀ e ∈ st.done, e.has_barrier = true) →
      ∀ e ∈ (data.foldl stepFlag st).done, e.has_barrier = true
  | [], st, h => h
  | d :: rest, st, h =>
    foldl_stepFlag_done_barrier rest (stepFlag st d) (stepFlag_done_barrier st d h)

/-- C6 (amended): in flag-only segmentation, every epoch except possibly
the last has `has_barrier = true`.  (Soft segmentation violates the claim
as stated: a soft time gap closes an epoch without a barrier; see the
counterexample.) -/
theorem c6_flag_barriers (ssz : Nat) (data : List disk_write) :
    ∀ e ∈ (InitDataVector ssz data).dropLast, e.has_barrier = true := by
  intro e he
  have hdone := foldl_stepFlag_done_barrier data
    { done := [], cur := none, ckpt := -1, abs := 0 } (by simp)
  rw [InitDataVector, segEpochs] at he
  rcases hcur : (data.foldl stepFlag
      { done := [], cur := none, ckpt := -1, abs := 0 }).cur with - | p
  · rw [hcur] at he
    simp only [List.append_nil] at he
    exact hdone e (List.mem_of_mem_dropLast he)
  · rw [hcur] at he
    rw [List.dropLast_concat] at he
    exact hdone e he

theorem c6_soft_counterexample :
    ¬ (∀ e ∈ (InitDataVectorSoft 512 softGapTrace).dropLast,
        e.has_barrier = true) := by decide

theorem c6_flag_barriers_witness :
    (InitDataVector 512 c6Trace).dropLast.getD 0 AddNewEpoch ∈
      (InitDataVector 512 c6Trace).dropLast ∧
    ((InitDataVector 512 c6Trace).dropLast.getD 0 AddNewEpoch).has_barrier = true :=
  ⟨by decide, c6_flag_barriers 512 c6Trace _ (by decide)⟩

/-! ## Checkpoint ids on checkpoint-free traces (C7) -/

theorem openCur_ckpt (st : SegState) (h1 : st.ckpt = -1)
    (h3 : ∀ p, st.cur = some p → p.1.checkpoint_epoch = -1) :
    (openCur st).1.checkpoint_epoch = -1 := by
  rw [openCur]
  rcases hcur : st.cur with - | p
  · exact h1
  · exact h3 p hcur

theorem stepFlag_ckpt (st : SegState) (d : disk_write) (hd : d.is_checkpoint = false)
    (h1 : st.ckpt = -1) (h2 : ∀ e ∈ st.done, e.checkpoint_epoch = -1)
    (h3 : ∀ p, st.cur = some p → p.1.checkpoint_epoch = -1) :
    (stepFlag st d).ckpt = -1 ∧
    (∀ e ∈ (stepFlag st d).done, e.checkpoint_epoch = -1) ∧
    (∀ p, (stepFlag st d).cur = some p → p.1.checkpoint_epoch = -1) := by
  have hoc := openCur_ckpt st h1 h3
  by_cases hb : d.is_barrier = true
  · by_cases hcs : CanSplitBarrier d = true
    · refine ⟨by simp [stepFlag, hb, hcs, h1], fun e he => ?_, fun p hp => ?_⟩
      · simp only [stepFlag, hb, hcs, Bool.not_true, Bool.false_eq_true,
          if_false, if_true, List.mem_append, List.mem_singleton] at he
        rcases he with he | he
        · exact h2 e he
        · subst he
          exact hoc
      · simp only [stepFlag, hb, hcs, Bool.not_true, Bool.false_eq_true,
          if_false, if_true, Option.some.injEq] at hp
        subst hp
        exact h1
    · refine ⟨by simp [stepFlag, hb, hcs, h1], fun e he => ?_, fun p hp => ?_⟩
      · simp only [stepFlag, hb, hcs, Bool.not_true, Bool.false_eq_true,
          if_false, if_true, List.mem_append, List.mem_singleton] at he
        rcases he with he | he
        · exact h2 e he
        · subst he
          exact hoc
      · simp only [stepFlag, hb, hcs, Bool.not_true, Bool.false_eq_true,
          if_false, if_true] at hp
        exact absurd hp (by simp)
  · refine ⟨by simp [stepFlag, hb, hd, h1], fun e he => ?_, fun p hp => ?_⟩
    · simp only [stepFlag, hb, hd, Bool.not_false, Bool.false_eq_true,
        if_false, if_true] at he
      exact h2 e he
    · simp only [stepFlag, hb, hd, Bool.not_false, Bool.false_eq_true,
        if_false, if_true, Option.some.injEq] at hp
      subst hp
      exact hoc

theorem foldl_stepFlag_ckpt :
    ∀ (data : List disk_write) (st : SegState),
      (∀ d ∈ data, d.is_checkpoint = false) →
      st.ckpt = -1 → (∀ e ∈ st.done, e.checkpoint_epoch = -1) →
      (∀ p, st.cur = some p → p.1.checkpoint_epoch = -1) →
      ((data.foldl stepFlag st).ckpt = -1 ∧
        (∀ e ∈ (data.foldl stepFlag st).done, e.checkpoint_epoch = -1) ∧
        (∀ p, (data.foldl stepFlag st).cur = some p → p.1.checkpoint_epoch = -1))
  | [], _, _, h1, h2, h3 => ⟨h1, h2, h3⟩
  | d :: rest, st, hnc, h1, h2, h3 => by
    rw [List.foldl_cons]
    have hstep := stepFlag_ckpt st d (hnc d (List.mem_cons_self d rest)) h1 h2 h3
    exact foldl_stepFlag_ckpt rest (stepFlag st d)
      (fun x hx => hnc x (List.mem_cons_of_mem d hx)) hstep.1 hstep.2.1 hstep.2.2

theorem stepSoft_ckpt (st : SoftState) (d : disk_write) (hd : d.is_checkpoint = false)
    (h1 : st.ckpt = -1)
    (h2 : (st.done ++ [st.cur]).map epoch.checkpoint_epoch =
      0 :: List.replicate st.done.length (-1)) :
    (stepSoft st d).ckpt = -1 ∧
    ((stepSoft st d).done ++ [(stepSoft st d).cur]).map epoch.checkpoint_epoch =
      0 :: List.replicate (stepSoft st d).done.length (-1) := by
  simp only [List.map_append, List.map_cons, List.map_nil] at h2
  by_cases hb : d.is_barrier = true
  · by_cases hcs : CanSplitBarrier d = true <;>
      refine ⟨by simp [stepSoft, hb, hcs, hd, h1], ?_⟩ <;>
    · simp only [stepSoft, hb, hcs, hd, Bool.not_true, Bool.false_eq_true,
        if_false, if_true, List.map_append, List.map_cons, List.map_nil]
      rw [h2, h1]
      simp [List.replicate_succ']
  · refine ⟨by simp [stepSoft, hb, hd, h1], ?_⟩
    by_cases hgap : (decide (0 < st.last_time) &&
        decide ((kSoftEpochMaxDelayNs : Int) ≤
          (d.metadata.time_ns : Int) - (st.last_time : Int))) = true
    · simp only [stepSoft, hb, hd, hgap, Bool.not_false, Bool.false_eq_true,
        if_false, if_true, List.map_append, List.map_cons, List.map_nil]
      rw [h2, h1]
      simp [List.replicate_succ']
    · simp only [stepSoft, hb, hd, hgap, Bool.not_false, Bool.false_eq_true,
        if_false, if_true, List.map_append, List.map_cons, List.map_nil]
      exact h2

theorem foldl_stepSoft_ckpt :
    ∀ (data : List disk_write) (st : SoftState),
      (∀ d ∈ data, d.is_checkpoint = false) →
      st.ckpt = -1 →
      ((st.done ++ [st.cur]).map epoch.checkpoint_epoch =
        0 :: List.replicate st.done.length (-1)) →
      ((data.foldl stepSoft st).ckpt = -1 ∧
        ((data.foldl stepSoft st).done ++ [(data.foldl stepSoft st).cur]).map
            epoch.checkpoint_epoch =
          0 :: List.replicate (data.foldl stepSoft st).done.length (-1))
  | [], _, _, h1, h2 => ⟨h1, h2⟩
  | d :: rest, st, hnc, h1, h2 => by
    rw [List.foldl_cons]
    have hstep := stepSoft_ckpt st d (hnc d (List.mem_cons_self d rest)) h1 h2
    exact foldl_stepSoft_ckpt rest (stepSoft st d)
      (fun x hx => hnc x (List.mem_cons_of_mem d hx)) hstep.1 hstep.2

/-- C7 (amended): on a trace with no checkpoint records, every epoch of
flag-only segmentation has `checkpoint_epoch = -1`; in soft segmentation
the epoch opened at the start keeps the `AddNewEpoch` initial value `0`
(it is never overwritten), while every subsequently opened epoch has
`checkpoint_epoch = -1`. -/
theorem c7_checkpoint_minus_one (ssz : Nat) (data : List disk_write)
    (hnc : ∀ d ∈ data, d.is_checkpoint = false) :
    (∀ e ∈ InitDataVector ssz data, e.checkpoint_epoch = -1) ∧
    (InitDataVectorSoft ssz data).map epoch.checkpoint_epoch =
      0 :: List.replicate ((InitDataVectorSoft ssz data).length - 1) (-1) := by
  constructor
  · intro e he
    have hinv := foldl_stepFlag_ckpt data
      { done := [], cur := none, ckpt := -1, abs := 0 } hnc rfl (by simp)
      (by simp)
    rw [InitDataVector, segEpochs] at he
    rcases hcur : (data.foldl stepFlag
        { done := [], cur := none, ckpt := -1, abs := 0 }).cur with - | p
    · rw [hcur] at he
      simp only [List.append_nil] at he
      exact hinv.2.1 e he
    · rw [hcur] at he
      rcases List.mem_append.mp he with hh | hh
      · exact hinv.2.1 e hh
      · simp only [List.mem_singleton] at hh
        subst hh
        exact hinv.2.2 p hcur
  · have hinv := foldl_stepSoft_ckpt data
      { done := [], cur := AddNewEpoch, ranges := [], ckpt := -1, abs := 0,
        last_time := 0 } hnc rfl rfl
    rw [InitDataVectorSoft]
    rcases hlast : (data.foldl stepSoft
        { done := [], cur := AddNewEpoch, ranges := [], ckpt := -1, abs := 0,
          last_time := 0 }).done.getLast? with - | prev
    · have hdone : (data.foldl stepSoft
          { done := [], cur := AddNewEpoch, ranges := [], ckpt := -1, abs := 0,
            last_time := 0 }).done = [] := by
        rwa [List.getLast?_eq_none_iff] at hlast
      rw [hdone] at hinv
      simp only [List.nil_append, List.length_nil, List.replicate] at hinv
      rw [hdone]
      simpa using hinv.2
    · have hne : (data.foldl stepSoft
          { done := [], cur := AddNewEpoch, ranges := [], ckpt := -1, abs := 0,
            last_time := 0 }).done ≠ [] := by
        intro h
        rw [h] at hlast
        simp at hlast
      have hlen : (data.foldl stepSoft
          { done := [], cur := AddNewEpoch, ranges := [], ckpt := -1, abs := 0,
            last_time := 0 }).done.length - 1 + 1 =
          (data.foldl stepSoft
          { done := [], cur := AddNewEpoch, ranges := [], ckpt := -1, abs := 0,
            last_time := 0 }).done.length := by
        have := List.length_pos.mpr hne
        omega
    -- split on the pop condition
      dsimp only
      split_ifs with hc
      · -- trailing empty epoch dropped
        have h2 := hinv.2
        rw [List.map_append, List.map_cons, List.map_nil] at h2
        rw [← hlen, List.replicate_succ'] at h2
        have h3 : (0 : Int) :: (List.replicate ((data.foldl stepSoft
            { done := [], cur := AddNewEpoch, ranges := [], ckpt := -1, abs := 0,
              last_time := 0 }).done.length - 1) (-1) ++ [-1]) =
            ((0 : Int) :: List.replicate ((data.foldl stepSoft
            { done := [], cur := AddNewEpoch, ranges := [], ckpt := -1, abs := 0,
              last_time := 0 }).done.length - 1) (-1)) ++ [-1] := by simp
        rw [h3] at h2
        exact (List.append_inj' h2 rfl).1
      · -- trailing epoch kept
        have h2 := hinv.2
        rw [h2]
        congr 1
        simp [hlen]

theorem c7_soft_counterexample :
    ¬ (∀ e ∈ InitDataVectorSoft 512 singleWriteTrace,
        e.checkpoint_epoch = -1) := by decide

theorem c7_checkpoint_minus_one_witness :
    (∀ d ∈ singleWriteTrace, d.is_checkpoint = false) ∧
    ((∀ e ∈ InitDataVector 512 singleWriteTrace, e.checkpoint_epoch = -1) ∧
      (InitDataVectorSoft 512 singleWriteTrace).map epoch.checkpoint_epoch =
        0 :: List.replicate
          ((InitDataVectorSoft 512 singleWriteTrace).length - 1) (-1)) :=
  ⟨by decide, c7_checkpoint_minus_one 512 singleWriteTrace (by decide)⟩

/-! ## Absolute-index bookkeeping (C3) -/

theorem absSeq_concat (xs : List epoch) (e : epoch) :
    absSeq (xs ++ [e]) = absSeq xs ++ e.ops.map epoch_op.abs_index := by
  simp [absSeq]

theorem segEpochs_absSeq (st : SegState) :
    absSeq (segEpochs st) =
      absSeq st.done ++ (openCur st).1.ops.map epoch_op.abs_index := by
  rcases hcur : st.cur with - | p <;>
    simp [segEpochs, openCur, hcur, absSeq, AddNewEpoch]

theorem not_barrier_not_split (d : disk_write) (h : d.is_barrier = false) :
    CanSplitBarrier d = false := by
  simp only [disk_write.is_barrier, Bool.or_eq_false_iff] at h
  simp [CanSplitBarrier, disk_write.has_flush_flag, disk_write.has_flush_seq_flag,
    h.1.1, h.1.2]

theorem stepFlag_abs (st : SegState) (d : disk_write) :
    (stepFlag st d).abs = st.abs + 1 := by
  by_cases hb : d.is_barrier = true <;>
    by_cases hcs : CanSplitBarrier d = true <;>
      by_cases hc : d.is_checkpoint = true <;>
        simp [stepFlag, hb, hcs, hc]

theorem stepFlag_absSeq (st : SegState) (d : disk_write)
    (hck : d.is_checkpoint = true → d.is_barrier = false) :
    absSeq (segEpochs (stepFlag st d)) =
      absSeq (segEpochs st) ++ classifyIdx d st.abs := by
  rw [segEpochs_absSeq st]
  by_cases hb : d.is_barrier = true
  · have hnc : d.is_checkpoint = false := by
      rcases hc : d.is_checkpoint
      · rfl
      · exact absurd (hck hc) (by simp [hb])
    by_cases hcs : CanSplitBarrier d = true
    · rw [segEpochs_absSeq]
      simp [stepFlag, hb, hcs, hnc, classifyIdx, openCur, absSeq_concat,
        AddNewEpoch, List.append_assoc]
    · rw [segEpochs_absSeq]
      simp [stepFlag, hb, hcs, hnc, classifyIdx, openCur, absSeq_concat,
        AddNewEpoch, List.append_assoc]
  · by_cases hc : d.is_checkpoint = true
    · rw [segEpochs_absSeq]
      simp [stepFlag, hb, hc, classifyIdx, openCur]
    · rw [segEpochs_absSeq]
      simp [stepFlag, hb, hc, not_barrier_not_split d (by simpa using hb),
        classifyIdx, openCur, absSeq_concat, List.append_assoc]

theorem stepSoft_abs (st : SoftState) (d : disk_write) :
    (stepSoft st d).abs = st.abs + 1 := by
  by_cases hc : d.is_checkpoint = true
  · simp [stepSoft, hc]
  · by_cases hb : d.is_barrier = true
    · by_cases hcs : CanSplitBarrier d = true <;> simp [stepSoft, hc, hb, hcs]
    · by_cases hgap : (decide (0 < st.last_time) &&
          decide ((kSoftEpochMaxDelayNs : Int) ≤
            (d.metadata.time_ns : Int) - (st.last_time : Int))) = true <;>
        simp [stepSoft, hc, hb, hgap]

theorem stepSoft_absSeq (st : SoftState) (d : disk_write) :
    absSeq ((stepSoft st d).done ++ [(stepSoft st d).cur]) =
      absSeq (st.done ++ [st.cur]) ++ classifyIdx d st.abs := by
  rw [absSeq_concat]
  by_cases hc : d.is_checkpoint = true
  · by_cases hlen : st.cur.ops.length = 0 <;>
      simp [stepSoft, hc, hlen, classifyIdx, absSeq_concat]
  · by_cases hb : d.is_barrier = true
    · have hcs' : CanSplitBarrier d = true → d.is_checkpoint = false := fun _ => by
        simpa using hc
      by_cases hcs : CanSplitBarrier d = true <;>
        simp [stepSoft, hc, hb, hcs, classifyIdx, absSeq_concat, AddNewEpoch,
          List.append_assoc]
    · by_cases hgap : (decide (0 < st.last_time) &&
          decide ((kSoftEpochMaxDelayNs : Int) ≤
            (d.metadata.time_ns : Int) - (st.last_time : Int))) = true <;>
        simp [stepSoft, hc, hb, hgap, not_barrier_not_split d (by simpa using hb),
          classifyIdx, absSeq_concat, AddNewEpoch, List.append_assoc]

theorem foldl_stepFlag_absSeq :
    ∀ (data : List disk_write) (st : SegState),
      (∀ d ∈ data, d.is_checkpoint = true → d.is_barrier = false) →
      absSeq (segEpochs (data.foldl stepFlag st)) =
        absSeq (segEpochs st) ++ expectedIndices data st.abs
  | [], st, _ => by simp [expectedIndices]
  | d :: rest, st, hck => by
    rw [List.foldl_cons, expectedIndices,
      foldl_stepFlag_absSeq rest (stepFlag st d)
        (fun x hx => hck x (List.mem_cons_of_mem d hx)),
      stepFlag_absSeq st d (hck d (List.mem_cons_self d rest)), stepFlag_abs,
      List.append_assoc]

theorem foldl_stepSoft_absSeq :
    ∀ (data : List disk_write) (st : SoftState),
      absSeq ((data.foldl stepSoft st).done ++ [(data.foldl stepSoft st).cur]) =
        absSeq (st.done ++ [st.cur]) ++ expectedIndices data st.abs
  | [], st => by simp [expectedIndices]
  | d :: rest, st => by
    rw [List.foldl_cons, expectedIndices,
      foldl_stepSoft_absSeq rest (stepSoft st d), stepSoft_absSeq st d,
      stepSoft_abs, List.append_assoc]

theorem classifyIdx_mem (d : disk_write) (n x : Nat) (h : x ∈ classifyIdx d n) :
    x = n := by
  rw [classifyIdx] at h
  split_ifs at h <;> simp at h <;> exact h

theorem expected_lower : ∀ (l : List disk_write) (n : Nat),
    ∀ x ∈ expectedIndices l n, n ≤ x
  | [], _ => by simp [expectedIndices]
  | d :: rest, n => by
    intro x hx
    rw [expectedIndices] at hx
    rcases List.mem_append.mp hx with h | h
    · exact Nat.le_of_eq (classifyIdx_mem d n x h).symm
    · exact Nat.le_of_succ_le (expected_lower rest (n + 1) x h)

theorem expected_pairwise : ∀ (l : List disk_write) (n : Nat),
    List.Pairwise (· ≤ ·) (expectedIndices l n)
  | [], _ => List.Pairwise.nil
  | d :: rest, n => by
    rw [expectedIndices, List.pairwise_append]
    refine ⟨?_, expected_pairwise rest (n + 1), ?_⟩
    · rw [classifyIdx]
      split_ifs <;> simp
    · intro a ha b hb
      rw [classifyIdx_mem d n a ha]
      exact Nat.le_of_succ_le (expected_lower rest (n + 1) b hb)

/-- C3: for both segmentation variants (on traces respecting the data-model
invariant that checkpoint records carry no barrier flag), concatenating the
ops of all epochs in order yields exactly the expected abs-index sequence:
input indices in order, checkpoint indices omitted, split-barrier indices
doubled; the sequence is monotonically non-decreasing. -/
theorem c3_abs_index_coverage (ssz : Nat) (data : List disk_write)
    (hck : ∀ d ∈ data, d.is_checkpoint = true → d.is_barrier = false) :
    absSeq (InitDataVector ssz data) = expectedIndices data 0 ∧
    absSeq (InitDataVectorSoft ssz data) = expectedIndices data 0 ∧
    List.Pairwise (· ≤ ·) (expectedIndices data 0) := by
  refine ⟨?_, ?_, expected_pairwise data 0⟩
  · have h := foldl_stepFlag_absSeq data
      { done := [], cur := none, ckpt := -1, abs := 0 } hck
    rw [InitDataVector]
    simpa [segEpochs, absSeq] using h
  · have h := foldl_stepSoft_absSeq data
      { done := [], cur := AddNewEpoch, ranges := [], ckpt := -1, abs := 0,
        last_time := 0 }
    have hinit : absSeq (([] : List epoch) ++ [AddNewEpoch]) = [] := by
      simp [absSeq, AddNewEpoch]
    rw [hinit, List.nil_append] at h
    rw [InitDataVectorSoft]
    rcases hlast : (data.foldl stepSoft
        { done := [], cur := AddNewEpoch, ranges := [], ckpt := -1, abs := 0,
          last_time := 0 }).done.getLast? with - | prev
    · exact h
    · dsimp only
      split_ifs with hc
      · have hops : (data.foldl stepSoft
            { done := [], cur := AddNewEpoch, ranges := [], ckpt := -1,
              abs := 0, last_time := 0 }).cur.ops = [] :=
          List.length_eq_zero.mp hc.2
        rw [absSeq_concat, hops] at h
        simpa using h
      · exact h

theorem c3_abs_index_coverage_witness :
    (∀ d ∈ c3Trace, d.is_checkpoint = true → d.is_barrier = false) ∧
    (absSeq (InitDataVector 512 c3Trace) = expectedIndices c3Trace 0 ∧
      absSeq (InitDataVectorSoft 512 c3Trace) = expectedIndices c3Trace 0 ∧
      List.Pairwise (· ≤ ·) (expectedIndices c3Trace 0)) :=
  ⟨by decide, c3_abs_index_coverage 512 c3Trace (by decide)⟩

/-! ## Overlap tracker correctness (C1) -/

theorem rangesHit_iff (r : Nat × Nat) (s e : Nat) (hr : r.1 ≤ r.2)
    (hse : s ≤ e) :
    rangesHit r s e = true ↔ rangesIntersectP r (s, e) := by
  simp only [rangesHit, Bool.or_eq_true, Bool.and_eq_true, decide_eq_true_eq]
  constructor
  · rintro ((⟨h1, h2⟩ | ⟨h1, h2⟩) | ⟨h1, h2⟩)
    · exact ⟨s, h1, h2, le_refl s, hse⟩
    · exact ⟨e, h1, h2, hse, le_refl e⟩
    · exact ⟨r.1, le_refl r.1, hr, h1, le_trans hr h2⟩
  · rintro ⟨x, h1, h2, h3, h4⟩
    omega

theorem covered_cons (r : Nat × Nat) (rs : List (Nat × Nat)) (x : Nat) :
    covered (r :: rs) x ↔ (r.1 ≤ x ∧ x ≤ r.2) ∨ covered rs x := by
  constructor
  · rintro ⟨r', hr', h1, h2⟩
    rcases List.mem_cons.mp hr' with h | h
    · subst h
      exact Or.inl ⟨h1, h2⟩
    · exact Or.inr ⟨r', h, h1, h2⟩
  · rintro (⟨h1, h2⟩ | ⟨r', hr', h1, h2⟩)
    · exact ⟨r, List.mem_cons_self r rs, h1, h2⟩
    · exact ⟨r', List.mem_cons_of_mem r hr', h1, h2⟩

theorem scanRanges_flag (s e : Nat) (hse : s ≤ e) :
    ∀ rs : List (Nat × Nat), sortedR rs → validR rs →
      ((scanRanges s e rs).1 = true ↔ ∃ r ∈ rs, rangesIntersectP r (s, e))
  | [], _, _ => by simp [scanRanges]
  | r :: rest, hs, hv => by
    rw [scanRanges]
    by_cases hhit : rangesHit r s e = true
    · rw [if_pos hhit]
      exact ⟨fun _ => ⟨r, List.mem_cons_self r rest,
        (rangesHit_iff r s e (hv r (List.mem_cons_self r rest)) hse).mp hhit⟩,
        fun _ => rfl⟩
    · rw [if_neg hhit]
      have hPr : ¬ rangesIntersectP r (s, e) := fun hp =>
        hhit ((rangesHit_iff r s e (hv r (List.mem_cons_self r rest)) hse).mpr hp)
      by_cases hlt : e < r.1
      · rw [if_pos hlt]
        simp only [Bool.false_eq_true, false_iff]
        rintro ⟨r', hr', x, h1, h2, h3, h4⟩
        rcases List.mem_cons.mp hr' with h | h
        · exact hPr (h ▸ ⟨x, h1, h2, h3, h4⟩)
        · have hle : r.1 ≤ r'.1 := (List.pairwise_cons.mp hs).1 r' h
          omega
      · rw [if_neg hlt]
        have IH := scanRanges_flag s e hse rest (List.Pairwise.of_cons hs)
          (fun r' hr' => hv r' (List.mem_cons_of_mem r hr'))
        rw [List.exists_mem_cons_iff]
        constructor
        · intro h
          exact Or.inr (IH.mp h)
        · rintro (h | h)
          · exact absurd h hPr
          · exact IH.mpr h

theorem scanRanges_covered (s e : Nat) (hse : s ≤ e) :
    ∀ rs : List (Nat × Nat), validR rs → ∀ x : Nat,
      (covered (scanRanges s e rs).2 x ↔ covered rs x ∨ (s ≤ x ∧ x ≤ e))
  | [], _, x => by
    rw [scanRanges]
    rw [covered_cons]
    simp [covered]
  | r :: rest, hv, x => by
    rw [scanRanges]
    by_cases hhit : rangesHit r s e = true
    · rw [if_pos hhit]
      have hP := (rangesHit_iff r s e (hv r (List.mem_cons_self r rest)) hse).mp hhit
      obtain ⟨y, hy1, hy2, hy3, hy4⟩ := hP
      rw [covered_cons, covered_cons]
      have hminmax : (min r.1 s ≤ x ∧ x ≤ max r.2 e) ↔
          ((r.1 ≤ x ∧ x ≤ r.2) ∨ (s ≤ x ∧ x ≤ e)) := by
        rw [Nat.min_def, Nat.max_def]
        split_ifs <;> omega
      rw [hminmax]
      tauto
    · rw [if_neg hhit]
      by_cases hlt : e < r.1
      · rw [if_pos hlt]
        simp only [covered_cons]
        tauto
      · rw [if_neg hlt]
        have IH := scanRanges_covered s e hse rest
          (fun r' hr' => hv r' (List.mem_cons_of_mem r hr')) x
        rw [covered_cons, covered_cons, IH]
        tauto

theorem scanRanges_sorted (s e : Nat) (hse : s ≤ e) :
    ∀ rs : List (Nat × Nat), sortedR rs → validR rs →
      sortedR (scanRanges s e rs).2 ∧ validR (scanRanges s e rs).2 ∧
      ∀ r' ∈ (scanRanges s e rs).2, s ≤ r'.1 ∨ ∃ r ∈ rs, r'.1 = r.1
  | [], _, _ => by
    refine ⟨List.pairwise_singleton _ _, ?_, ?_⟩
    · intro r hr
      rw [scanRanges, List.mem_singleton] at hr
      subst hr
      exact hse
    · intro r' hr'
      rw [scanRanges, List.mem_singleton] at hr'
      subst hr'
      exact Or.inl (le_refl s)
  | r :: rest, hs, hv => by
    obtain ⟨hhead, htail⟩ := List.pairwise_cons.mp hs
    rw [scanRanges]
    by_cases hhit : rangesHit r s e = true
    · rw [if_pos hhit]
      refine ⟨?_, ?_, ?_⟩
      · exact List.Pairwise.cons
          (fun r' hr' => le_trans (min_le_left _ _) (hhead r' hr')) htail
      · intro r' hr'
        rcases List.mem_cons.mp hr' with h | h
        · subst h
          exact le_trans (min_le_left _ _)
            (le_trans (hv r (List.mem_cons_self r rest)) (le_max_left _ _))
        · exact hv r' (List.mem_cons_of_mem r h)
      · intro r' hr'
        rcases List.mem_cons.mp hr' with h | h
        · subst h
          rcases Nat.le_total r.1 s with h1 | h1
          · exact Or.inr ⟨r, List.mem_cons_self r rest, min_eq_left h1⟩
          · exact Or.inl (le_of_eq (min_eq_right h1).symm)
        · exact Or.inr ⟨r', List.mem_cons_of_mem r h, rfl⟩
    · rw [if_neg hhit]
      by_cases hlt : e < r.1
      · rw [if_pos hlt]
        refine ⟨?_, ?_, ?_⟩
        · refine List.Pairwise.cons ?_ hs
          intro r' hr'
          rcases List.mem_cons.mp hr' with h | h
          · subst h
            exact le_of_lt (lt_of_le_of_lt hse hlt)
          · exact le_trans (le_of_lt (lt_of_le_of_lt hse hlt)) (hhead r' h)
        · intro r' hr'
          rcases List.mem_cons.mp hr' with h | h
          · subst h
            exact hse
          · exact hv r' h
        · intro r' hr'
          rcases List.mem_cons.mp hr' with h | h
          · subst h
            exact Or.inl (le_refl s)
          · exact Or.inr ⟨r', h, rfl⟩
      · rw [if_neg hlt]
        have hr2s : r.2 < s := by
          simp only [rangesHit, Bool.or_eq_true, Bool.and_eq_true,
            decide_eq_true_eq] at hhit
          have := hv r (List.mem_cons_self r rest)
          omega
        have IH := scanRanges_sorted s e hse rest htail
          (fun r' hr' => hv r' (List.mem_cons_of_mem r hr'))
        refine ⟨?_, ?_, ?_⟩
        · refine List.Pairwise.cons ?_ IH.1
          intro r' hr'
          rcases IH.2.2 r' hr' with h | ⟨r'', hr'', heq⟩
          · exact le_trans (le_trans (hv r (List.mem_cons_self r rest))
              (le_of_lt hr2s)) h
          · rw [heq]
            exact hhead r'' hr''
        · intro r' hr'
          rcases List.mem_cons.mp hr' with h | h
          · rw [h]
            exact hv r (List.mem_cons_self r rest)
          · exact IH.2.1 r' h
        · intro r' hr'
          rcases List.mem_cons.mp hr' with h | h
          · rw [h]
            exact Or.inr ⟨r, List.mem_cons_self r rest, rfl⟩
          · rcases IH.2.2 r' h with hh | ⟨r'', hr'', heq⟩
            · exact Or.inl hh
            · exact Or.inr ⟨r'', List.mem_cons_of_mem r hr'', heq⟩

theorem PairInt_nil : ¬ PairInt ([] : List (Nat × Nat)) :=
  fun h => h List.Pairwise.nil

theorem PairInt_singleton (q : Nat × Nat) : ¬ PairInt [q] :=
  fun h => h (List.pairwise_singleton _ _)

theorem TrackInv_nil : TrackInv [] false [] := by
  refine ⟨List.Pairwise.nil, ?_, ?_, ?_⟩
  · intro r hr
    exact absurd hr (List.not_mem_nil r)
  · intro x
    constructor
    · rintro ⟨r, hr, -⟩
      exact absurd hr (List.not_mem_nil r)
    · rintro ⟨q, hq, -⟩
      exact absurd hq (List.not_mem_nil q)
  · exact iff_of_false (by simp) PairInt_nil

theorem TrackInv_single (s e : Nat) (hse : s ≤ e) :
    TrackInv [(s, e)] false [(s, e)] := by
  refine ⟨List.pairwise_singleton _ _, ?_, fun x => Iff.rfl, ?_⟩
  · intro r hr
    rw [List.mem_singleton] at hr
    subst hr
    exact hse
  · exact iff_of_false (by simp) (PairInt_singleton (s, e))

theorem trackStep (ps : List (Nat × Nat)) (flag : Bool) (rs : List (Nat × Nat))
    (s e : Nat) (hse : s ≤ e) (hinv : TrackInv ps flag rs) :
    TrackInv (ps ++ [(s, e)]) (flag || (scanRanges s e rs).1)
      (scanRanges s e rs).2 := by
  obtain ⟨hs, hv, hcov, hflag⟩ := hinv
  obtain ⟨hs', hv', hbound⟩ := scanRanges_sorted s e hse rs hs hv
  refine ⟨hs', hv', ?_, ?_⟩
  · intro x
    rw [show covered (scanRanges s e rs).2 x ↔ covered rs x ∨ (s ≤ x ∧ x ≤ e)
      from scanRanges_covered s e hse rs hv x, hcov x]
    constructor
    · rintro (⟨q, hq, h1, h2⟩ | ⟨h1, h2⟩)
      · exact ⟨q, List.mem_append_left _ hq, h1, h2⟩
      · exact ⟨(s, e), List.mem_append_right _ (List.mem_singleton.mpr rfl), h1, h2⟩
    · rintro ⟨q, hq, h1, h2⟩
      rcases List.mem_append.mp hq with h | h
      · exact Or.inl ⟨q, h, h1, h2⟩
      · rw [List.mem_singleton] at h
        subst h
        exact Or.inr ⟨h1, h2⟩
  · rw [Bool.or_eq_true, hflag,
      scanRanges_flag s e hse rs hs hv]
    have hmid : (∃ r ∈ rs, rangesIntersectP r (s, e)) ↔
        ∃ q ∈ ps, rangesIntersectP q (s, e) := by
      constructor
      · rintro ⟨r, hr, x, h1, h2, h3, h4⟩
        obtain ⟨q, hq, hq1, hq2⟩ := (hcov x).mp ⟨r, hr, h1, h2⟩
        exact ⟨q, hq, x, hq1, hq2, h3, h4⟩
      · rintro ⟨q, hq, x, h1, h2, h3, h4⟩
        obtain ⟨r, hr, hr1, hr2⟩ := (hcov x).mpr ⟨q, hq, h1, h2⟩
        exact ⟨r, hr, x, hr1, hr2, h3, h4⟩
    rw [hmid, PairInt, PairInt, List.pairwise_append]
    constructor
    · rintro (h | ⟨q, hq, hP⟩) hc
      · exact h hc.1
      · exact hc.2.2 q hq (s, e) (List.mem_singleton.mpr rfl) hP
    · intro h
      by_cases hps : List.Pairwise (fun a b => ¬rangesIntersectP a b) ps
      · right
        by_contra hno
        push_neg at hno
        apply h
        refine ⟨hps, List.pairwise_singleton _ _, ?_⟩
        intro a ha b hb
        rw [List.mem_singleton] at hb
        subst hb
        exact hno a ha
      · exact Or.inl hps

theorem sectorEnd_eq (d : disk_write) (h1 : 1 ≤ d.metadata.size)
    (h2 : d.metadata.write_sector + d.metadata.size ≤ u32) :
    sectorEnd d = d.metadata.write_sector + d.metadata.size - 1 := by
  rw [sectorEnd]
  rw [show d.metadata.write_sector + d.metadata.size + (u32 - 1) =
      (d.metadata.write_sector + d.metadata.size - 1) + u32 from by
    simp only [u32] at h2 ⊢
    omega]
  rw [Nat.add_mod_right]
  apply Nat.mod_eq_of_lt
  simp only [u32] at h2 ⊢
  omega

theorem opRange_le (d : disk_write) (h1 : 1 ≤ d.metadata.size) :
    (opRange d).1 ≤ (opRange d).2 := by
  rw [opRange]
  omega

theorem findOverlaps_eq_scan (d : disk_write) (rs : List (Nat × Nat))
    (h1 : 1 ≤ d.metadata.size)
    (h2 : d.metadata.write_sector + d.metadata.size ≤ u32) :
    FindOverlapsAndInsert d rs = scanRanges (opRange d).1 (opRange d).2 rs := by
  rw [FindOverlapsAndInsert, sectorEnd_eq d h1 h2, opRange]

theorem nbOps_append_keep (e : epoch) (ops' : List epoch_op) (o : epoch_op)
    (nm : Nat) (ov : Bool) (hop : o.op.is_barrier = false) :
    nbOps { e with ops := ops' ++ [o], num_meta := nm, overlaps := ov } =
      (ops'.filter fun x => !x.op.is_barrier) ++ [o] := by
  rw [nbOps, List.filter_append]
  simp [hop]

theorem opsIntervals_append (l : List epoch_op) (o : epoch_op) :
    opsIntervals (l ++ [o]) = opsIntervals l ++ [opRange o.op] := by
  simp [opsIntervals]

theorem openCur_track (st : SegState)
    (hcur : ∀ p, st.cur = some p →
      TrackInv (opsIntervals (nbOps p.1)) p.1.overlaps p.2) :
    TrackInv (opsIntervals (nbOps (openCur st).1)) (openCur st).1.overlaps
      (openCur st).2 := by
  rcases hc : st.cur with - | p
  · rw [openCur]
    simp only [hc]
    exact TrackInv_nil
  · rw [openCur]
    simp only [hc]
    exact hcur p hc

theorem stepFlag_track (st : SegState) (d : disk_write)
    (hck : d.is_checkpoint = true → d.is_barrier = false)
    (hsz : d.is_checkpoint = false →
      1 ≤ d.metadata.size ∧ d.metadata.write_sector + d.metadata.size ≤ u32)
    (hdone : ∀ e ∈ st.done,
      (e.overlaps = true ↔ PairInt (opsIntervals (nbOps e))))
    (hcur : ∀ p, st.cur = some p →
      TrackInv (opsIntervals (nbOps p.1)) p.1.overlaps p.2) :
    (∀ e ∈ (stepFlag st d).done,
      (e.overlaps = true ↔ PairInt (opsIntervals (nbOps e)))) ∧
    (∀ p, (stepFlag st d).cur = some p →
      TrackInv (opsIntervals (nbOps p.1)) p.1.overlaps p.2) := by
  have hoc := openCur_track st hcur
  by_cases hb : d.is_barrier = true
  · have hnc : d.is_checkpoint = false := by
      rcases hc : d.is_checkpoint
      · rfl
      · exact absurd (hck hc) (by simp [hb])
    obtain ⟨hsz1, hsz2⟩ := hsz hnc
    by_cases hcs : CanSplitBarrier d = true
    · constructor
      · intro e he
        simp only [stepFlag, hb, hcs, Bool.not_true, Bool.false_eq_true,
          if_false, if_true, List.mem_append, List.mem_singleton] at he
        rcases he with he | he
        · exact hdone e he
        · subst he
          simpa [nbOps, opsIntervals, List.filter_append,
            canSplit_fst_barrier d hcs] using hoc.2.2.2
      · intro p hp
        simp only [stepFlag, hb, hcs, Bool.not_true, Bool.false_eq_true,
          if_false, if_true, Option.some.injEq] at hp
        subst hp
        have h1' : 1 ≤ (SplitBarrier d).2.metadata.size := by
          rw [splitBarrier_snd_eq]
          exact hsz1
        have h2' : (SplitBarrier d).2.metadata.write_sector +
            (SplitBarrier d).2.metadata.size ≤ u32 := by
          rw [splitBarrier_snd_eq]
          exact hsz2
        have hfe2 := findOverlaps_eq_scan (SplitBarrier d).2 [] h1' h2'
        rw [hfe2]
        have hsing := TrackInv_single (opRange (SplitBarrier d).2).1
          (opRange (SplitBarrier d).2).2 (opRange_le _ h1')
        simpa [nbOps, opsIntervals, scanRanges,
          canSplit_snd_not_barrier d hcs] using hsing
    · constructor
      · intro e he
        simp only [stepFlag, hb, hcs, Bool.not_true, Bool.false_eq_true,
          if_false, if_true, List.mem_append, List.mem_singleton] at he
        rcases he with he | he
        · exact hdone e he
        · subst he
          simpa [nbOps, opsIntervals, List.filter_append, hb] using hoc.2.2.2
      · intro p hp
        simp only [stepFlag, hb, hcs, Bool.not_true, Bool.false_eq_true,
          if_false, if_true] at hp
        exact absurd hp (by simp)
  · have hb' : d.is_barrier = false := by simpa using hb
    by_cases hc : d.is_checkpoint = true
    · constructor
      · intro e he
        simp only [stepFlag, hb', hc, Bool.not_false, Bool.false_eq_true,
          if_false, if_true] at he
        exact hdone e he
      · intro p hp
        simp only [stepFlag, hb', hc, Bool.not_false, Bool.false_eq_true,
          if_false, if_true, Option.some.injEq] at hp
        subst hp
        exact hoc
    · have hc' : d.is_checkpoint = false := by simpa using hc
      obtain ⟨hsz1, hsz2⟩ := hsz hc'
      constructor
      · intro e he
        simp only [stepFlag, hb', hc', Bool.not_false, Bool.false_eq_true,
          if_false, if_true] at he
        exact hdone e he
      · intro p hp
        simp only [stepFlag, hb', hc', Bool.not_false, Bool.false_eq_true,
          if_false, if_true, Option.some.injEq] at hp
        subst hp
        have hfe := findOverlaps_eq_scan d (openCur st).2 hsz1 hsz2
        rw [hfe]
        have hstep := trackStep (opsIntervals (nbOps (openCur st).1))
          (openCur st).1.overlaps (openCur st).2 (opRange d).1 (opRange d).2
          (opRange_le d hsz1) hoc
        simpa [nbOps, opsIntervals, List.filter_append, hb'] using hstep

theorem stepSoft_track (st : SoftState) (d : disk_write)
    (hck : d.is_checkpoint = true → d.is_barrier = false)
    (hsz : d.is_checkpoint = false →
      1 ≤ d.metadata.size ∧ d.metadata.write_sector + d.metadata.size ≤ u32)
    (hdone : ∀ e ∈ st.done,
      (e.overlaps = true ↔ PairInt (opsIntervals (nbOps e))))
    (hcur : TrackInv (opsIntervals (nbOps st.cur)) st.cur.overlaps st.ranges) :
    (∀ e ∈ (stepSoft st d).done,
      (e.overlaps = true ↔ PairInt (opsIntervals (nbOps e)))) ∧
    TrackInv (opsIntervals (nbOps (stepSoft st d).cur))
      (stepSoft st d).cur.overlaps (stepSoft st d).ranges := by
  by_cases hc : d.is_checkpoint = true
  · refine ⟨fun e he => hdone e (by simpa [stepSoft, hc] using he), ?_⟩
    by_cases hlen : st.cur.ops.length = 0 <;>
      simpa [stepSoft, hc, hlen] using hcur
  · have hc' : d.is_checkpoint = false := by simpa using hc
    by_cases hb : d.is_barrier = true
    · obtain ⟨hsz1, hsz2⟩ := hsz hc'
      by_cases hcs : CanSplitBarrier d = true
      · constructor
        · intro e he
          simp only [stepSoft, hc', hb, hcs, Bool.not_true, Bool.false_eq_true,
            if_false, if_true, List.mem_append, List.mem_singleton] at he
          rcases he with he | he
          · exact hdone e he
          · subst he
            simpa [nbOps, opsIntervals, List.filter_append,
              canSplit_fst_barrier d hcs] using hcur.2.2.2
        · have h1' : 1 ≤ (SplitBarrier d).2.metadata.size := by
            rw [splitBarrier_snd_eq]
            exact hsz1
          have h2' : (SplitBarrier d).2.metadata.write_sector +
              (SplitBarrier d).2.metadata.size ≤ u32 := by
            rw [splitBarrier_snd_eq]
            exact hsz2
          have hsing := TrackInv_single (opRange (SplitBarrier d).2).1
            (opRange (SplitBarrier d).2).2 (opRange_le _ h1')
          simp only [stepSoft, hc', hb, hcs, Bool.not_true, Bool.false_eq_true,
            if_false, if_true]
          rw [findOverlaps_eq_scan (SplitBarrier d).2 [] h1' h2']
          simpa [nbOps, opsIntervals, scanRanges,
            canSplit_snd_not_barrier d hcs] using hsing
      · constructor
        · intro e he
          simp only [stepSoft, hc', hb, hcs, Bool.not_true, Bool.false_eq_true,
            if_false, if_true, List.mem_append, List.mem_singleton] at he
          rcases he with he | he
          · exact hdone e he
          · subst he
            simpa [nbOps, opsIntervals, List.filter_append, hb] using hcur.2.2.2
        · simp only [stepSoft, hc', hb, hcs, Bool.not_true, Bool.false_eq_true,
            if_false, if_true]
          exact TrackInv_nil
    · have hb' : d.is_barrier = false := by simpa using hb
      obtain ⟨hsz1, hsz2⟩ := hsz hc'
      by_cases hgap : (decide (0 < st.last_time) &&
          decide ((kSoftEpochMaxDelayNs : Int) ≤
            (d.metadata.time_ns : Int) - (st.last_time : Int))) = true
      · constructor
        · intro e he
          simp only [stepSoft, hc', hb', hgap, Bool.not_false,
            Bool.false_eq_true, if_false, if_true, List.mem_append,
            List.mem_singleton] at he
          rcases he with he | he
          · exact hdone e he
          · subst he
            exact hcur.2.2.2
        · simp only [stepSoft, hc', hb', hgap, Bool.not_false,
            Bool.false_eq_true, if_false, if_true]
          rw [findOverlaps_eq_scan d [] hsz1 hsz2]
          have hstep := trackStep [] false [] (opRange d).1 (opRange d).2
            (opRange_le d hsz1) TrackInv_nil
          simpa [nbOps, opsIntervals, hb'] using hstep
      · constructor
        · intro e he
          simp only [stepSoft, hc', hb', hgap, Bool.not_false,
            Bool.false_eq_true, if_false, if_true] at he
          exact hdone e he
        · simp only [stepSoft, hc', hb', hgap, Bool.not_false,
            Bool.false_eq_true, if_false, if_true]
          rw [findOverlaps_eq_scan d st.ranges hsz1 hsz2]
          have hstep := trackStep (opsIntervals (nbOps st.cur))
            st.cur.overlaps st.ranges (opRange d).1 (opRange d).2
            (opRange_le d hsz1) hcur
          simpa [nbOps, opsIntervals, List.filter_append, hb'] using hstep

theorem foldl_stepFlag_track :
    ∀ (data : List disk_write) (st : SegState),
      (∀ d ∈ data, d.is_checkpoint = true → d.is_barrier = false) →
      (∀ d ∈ data, d.is_checkpoint = false →
        1 ≤ d.metadata.size ∧ d.metadata.write_sector + d.metadata.size ≤ u32) →
      (∀ e ∈ st.done,
        (e.overlaps = true ↔ PairInt (opsIntervals (nbOps e)))) →
      (∀ p, st.cur = some p →
        TrackInv (opsIntervals (nbOps p.1)) p.1.overlaps p.2) →
      ((∀ e ∈ (data.foldl stepFlag st).done,
        (e.overlaps = true ↔ PairInt (opsIntervals (nbOps e)))) ∧
      (∀ p, (data.foldl stepFlag st).cur = some p →
        TrackInv (opsIntervals (nbOps p.1)) p.1.overlaps p.2))
  | [], _, _, _, hdone, hcur => ⟨hdone, hcur⟩
  | d :: rest, st, hck, hsz, hdone, hcur => by
    rw [List.foldl_cons]
    have hstep := stepFlag_track st d (hck d (List.mem_cons_self d rest))
      (hsz d (List.mem_cons_self d rest)) hdone hcur
    exact foldl_stepFlag_track rest (stepFlag st d)
      (fun x hx => hck x (List.mem_cons_of_mem d hx))
      (fun x hx => hsz x (List.mem_cons_of_mem d hx)) hstep.1 hstep.2

theorem foldl_stepSoft_track :
    ∀ (data : List disk_write) (st : SoftState),
      (∀ d ∈ data, d.is_checkpoint = true → d.is_barrier = false) →
      (∀ d ∈ data, d.is_checkpoint = false →
        1 ≤ d.metadata.size ∧ d.metadata.write_sector + d.metadata.size ≤ u32) →
      (∀ e ∈ st.done,
        (e.overlaps = true ↔ PairInt (opsIntervals (nbOps e)))) →
      TrackInv (opsIntervals (nbOps st.cur)) st.cur.overlaps st.ranges →
      ((∀ e ∈ (data.foldl stepSoft st).done,
        (e.overlaps = true ↔ PairInt (opsIntervals (nbOps e)))) ∧
      TrackInv (opsIntervals (nbOps (data.foldl stepSoft st).cur))
        (data.foldl stepSoft st).cur.overlaps (data.foldl stepSoft st).ranges)
  | [], _, _, _, hdone, hcur => ⟨hdone, hcur⟩
  | d :: rest, st, hck, hsz, hdone, hcur => by
    rw [List.foldl_cons]
    have hstep := stepSoft_track st d (hck d (List.mem_cons_self d rest))
      (hsz d (List.mem_cons_self d rest)) hdone hcur
    exact foldl_stepSoft_track rest (stepSoft st d)
      (fun x hx => hck x (List.mem_cons_of_mem d hx))
      (fun x hx => hsz x (List.mem_cons_of_mem d hx)) hstep.1 hstep.2

theorem PairInt_iff_pairOverlap (l : List epoch_op) :
    PairInt (opsIntervals l) ↔ pairOverlapOps l := by
  rw [PairInt, opsIntervals, List.pairwise_map, List.pairwise_iff_get]
  constructor
  · intro h
    by_contra hno
    apply h
    intro i j hij hP
    exact hno ⟨i.1, j.1, i.isLt, j.isLt, hij, hP⟩
  · rintro ⟨i, j, hi, hj, hij, hP⟩ h
    exact h ⟨i, hi⟩ ⟨j, hj⟩ hij hP

/-- C1 (amended): for traces whose records respect the data-model invariant
(checkpoints carry no barrier flag) and whose non-checkpoint records have
positive size and a non-overflowing end sector, an epoch's `overlaps` flag
is true iff some pair of its NON-BARRIER ops (the ops the tracker sees) has
intersecting `[write_sector, write_sector + size - 1]` ranges, in both
segmentation variants; the pair condition is order-independent and the
incremental tracker produces neither false negatives nor false positives
for those ops.  (Barrier ops appended when an epoch closes are never
checked against the tracker; see the counterexample.) -/
theorem c1_overlaps_iff (ssz : Nat) (data : List disk_write)
    (hck : ∀ d ∈ data, d.is_checkpoint = true → d.is_barrier = false)
    (hsz : ∀ d ∈ data, d.is_checkpoint = false →
      1 ≤ d.metadata.size ∧ d.metadata.write_sector + d.metadata.size ≤ u32) :
    (∀ e ∈ InitDataVector ssz data,
      (e.overlaps = true ↔ pairOverlapOps (nbOps e))) ∧
    (∀ e ∈ InitDataVectorSoft ssz data,
      (e.overlaps = true ↔ pairOverlapOps (nbOps e))) := by
  constructor
  · intro e he
    rw [← PairInt_iff_pairOverlap]
    have hinv := foldl_stepFlag_track data
      { done := [], cur := none, ckpt := -1, abs := 0 } hck hsz
      (by simp) (by simp)
    rw [InitDataVector, segEpochs] at he
    rcases hcur : (data.foldl stepFlag
        { done := [], cur := none, ckpt := -1, abs := 0 }).cur with - | p
    · rw [hcur] at he
      simp only [List.append_nil] at he
      exact hinv.1 e he
    · rw [hcur] at he
      rcases List.mem_append.mp he with hh | hh
      · exact hinv.1 e hh
      · simp only [List.mem_singleton] at hh
        subst hh
        exact (hinv.2 p hcur).2.2.2
  · intro e he
    rw [← PairInt_iff_pairOverlap]
    have hinv := foldl_stepSoft_track data
      { done := [], cur := AddNewEpoch, ranges := [], ckpt := -1, abs := 0,
        last_time := 0 } hck hsz (by simp) TrackInv_nil
    rw [InitDataVectorSoft] at he
    rcases hlast : (data.foldl stepSoft
        { done := [], cur := AddNewEpoch, ranges := [], ckpt := -1, abs := 0,
          last_time := 0 }).done.getLast? with - | prev
    · rw [hlast] at he
      rcases List.mem_append.mp he with hh | hh
      · exact hinv.1 e hh
      · simp only [List.mem_singleton] at hh
        subst hh
        exact hinv.2.2.2.2
    · rw [hlast] at he
      dsimp only at he
      by_cases hcnd : (data.foldl stepSoft
          { done := [], cur := AddNewEpoch, ranges := [], ckpt := -1, abs := 0,
            last_time := 0 }).cur.checkpoint_epoch = prev.checkpoint_epoch ∧
          (data.foldl stepSoft
          { done := [], cur := AddNewEpoch, ranges := [], ckpt := -1, abs := 0,
            last_time := 0 }).cur.ops.length = 0
      · rw [if_pos hcnd] at he
        exact hinv.1 e he
      · rw [if_neg hcnd] at he
        rcases List.mem_append.mp he with hh | hh
        · exact hinv.1 e hh
        · simp only [List.mem_singleton] at hh
          subst hh
          exact hinv.2.2.2.2

theorem c1_counterexample :
    (∃ e ∈ InitDataVector 512 cxBarrierTrace,
      e.overlaps = false ∧ pairOverlapOps e.ops) ∧
    (∃ e ∈ InitDataVector 512 cxZeroTrace,
      e.overlaps = true ∧ nbOps e = e.ops ∧ ¬ pairOverlapOps e.ops) := by
  constructor
  · refine ⟨(InitDataVector 512 cxBarrierTrace).getD 0 AddNewEpoch,
      by decide, by decide, ?_⟩
    rw [← PairInt_iff_pairOverlap]
    decide
  · refine ⟨(InitDataVector 512 cxZeroTrace).getD 0 AddNewEpoch,
      by decide, by decide, by decide, ?_⟩
    rw [← PairInt_iff_pairOverlap]
    decide

theorem c1_overlaps_iff_witness :
    ((∀ d ∈ overlapTrace, d.is_checkpoint = true → d.is_barrier = false) ∧
      (∀ d ∈ overlapTrace, d.is_checkpoint = false →
        1 ≤ d.metadata.size ∧
          d.metadata.write_sector + d.metadata.size ≤ u32)) ∧
    ((∀ e ∈ InitDataVector 512 overlapTrace,
        (e.overlaps = true ↔ pairOverlapOps (nbOps e))) ∧
      (∀ e ∈ InitDataVectorSoft 512 overlapTrace,
        (e.overlaps = true ↔ pairOverlapOps (nbOps e)))) :=
  ⟨⟨by decide, by decide⟩,
    c1_overlaps_iff 512 overlapTrace (by decide) (by decide)⟩
